import Mathlib

/-! docker-volume-sshfs: the reference-counted mount registry.

A shallow embedding of `main.go`.  The driver's methods become pure functions
from the driver value and the request to a `Result`: the driver afterwards,
the `volume.Response`, and the ordered list of calls made to the operating
system (`Event`).  What the operating system answers to each call is an input
(`Env`), so every outcome of `os.Lstat`, `os.MkdirAll` and of the two child
processes is covered.

`connections` is a Go `int` (64 bit); it is modelled as `Int`, since a driver
would need `2^63` calls for the counter to wrap.
-/

namespace SshfsVolume

/-! ## Pieces of the Go standard library used by the driver -/

/-- The pieces of a character list between the occurrences of `sep`, the way
`strings.Split` with a one-byte separator gives them: one piece more than
there are separators, and a single empty piece for the empty input. -/
def splitOn (sep : Char) : List Char → List (List Char)
  | [] => [[]]
  | c :: cs =>
    if c = sep then [] :: splitOn sep cs
    else
      match splitOn sep cs with
      | [] => [[c]]
      | p :: ps => (c :: p) :: ps

/-- One element of a path processed by `filepath.Clean`; `stack` holds the
elements kept so far, the last one first.  Empty and `.` elements are dropped,
`..` removes the element before it when there is one that is not itself `..`,
is dropped at the top of a rooted path, and is kept otherwise. -/
def cleanStep (rooted : Bool) (stack : List (List Char)) (el : List Char) :
    List (List Char) :=
  if el = [] then stack
  else if el = ['.'] then stack
  else if el = ['.', '.'] then
    match stack with
    | [] => if rooted then [] else [el]
    | top :: rest => if top = ['.', '.'] then el :: stack else rest
  else el :: stack

/-- Lexical path cleaning of `filepath.Clean` on a Unix system, on characters. -/
def cleanChars (path : List Char) : List Char :=
  let rooted : Bool := path.head? = some '/'
  let stack := (splitOn '/' path).foldl (cleanStep rooted) []
  let body := List.intercalate ['/'] stack.reverse
  if rooted then '/' :: body
  else if stack = [] then ['.']
  else body

/-- Go `filepath.Clean`. -/
def filepath.Clean (path : String) : String :=
  String.mk (cleanChars path.data)

/-- Go `filepath.Join` of two elements: leading empty elements are ignored, the
rest is joined with `/` and cleaned; all elements empty gives the empty
string. -/
def filepath.Join (a b : String) : String :=
  if a ≠ "" then filepath.Clean (a ++ "/" ++ b)
  else if b ≠ "" then filepath.Clean b
  else ""

/-! ## Data model -/

/-- Go `volume_name`: one registry entry. -/
structure volume_name where
  name : String
  connections : Int
  deriving DecidableEq, Repr

/-- The map `volumes map[string]*volume_name`, as an association list keyed by
mountpoint. -/
abbrev Registry := List (String × volume_name)

/-- The map read `d.volumes[m]`; `none` is Go's `ok == false`. -/
def Registry.get : Registry → String → Option volume_name
  | [], _ => none
  | (k, v) :: t, m => if k = m then some v else Registry.get t m

/-- The map write `d.volumes[m] = v`, also used for a write through the stored
pointer: an existing key keeps its place. -/
def Registry.set : Registry → String → volume_name → Registry
  | [], m, v => [(m, v)]
  | (k, w) :: t, m, v => if k = m then (k, v) :: t else (k, w) :: Registry.set t m v

/-- The map deletion `delete(d.volumes, m)`. -/
def Registry.delete : Registry → String → Registry
  | [], _ => []
  | (k, w) :: t, m => if k = m then Registry.delete t m else (k, w) :: Registry.delete t m

/-- Go `sshfsDriver`, without the mutex. -/
structure sshfsDriver where
  root : String
  volumes : Registry
  deriving DecidableEq, Repr

/-- Go `volume.Request`. -/
structure Request where
  Name : String
  deriving DecidableEq, Repr

/-- Go `volume.Volume`. -/
structure Volume where
  Name : String
  Mountpoint : String
  deriving DecidableEq, Repr

/-- Go `volume.Response`; `Scope` stands for `Capabilities.Scope`. -/
structure Response where
  Mountpoint : String
  Err : String
  Volumes : List Volume
  Volume : Option Volume
  Scope : String
  deriving DecidableEq, Repr

/-- The zero value `volume.Response{}`. -/
def Response.zero : Response := ⟨"", "", [], none, ""⟩

/-- The value `volume.Response{Err: e}`. -/
def Response.ofErr (e : String) : Response := ⟨"", e, [], none, ""⟩

/-- The value `volume.Response{Mountpoint: m}`. -/
def Response.ofMountpoint (m : String) : Response := ⟨m, "", [], none, ""⟩

/-! ## The operating system -/

/-- What `os.Lstat` returns: an error for which `os.IsNotExist` holds, another
error, or a file info (with `IsDir()`). -/
inductive LstatResult where
  | notExist
  | error (msg : String)
  | info (isDir : Bool)
  deriving DecidableEq, Repr

/-- What running the mount command gives in `mountVolume`: `StderrPipe` fails,
`Start` fails, `Wait` fails (with the text the process wrote to its error
stream), or the process exits with status zero. -/
inductive ExecResult where
  | pipeFailed (err : String)
  | startFailed (err : String)
  | waitFailed (err : String) (stderr : String)
  | exited0
  deriving DecidableEq, Repr

/-- The answers of the operating system during one driver call.  `mkdirAll` and
`umount` give the error text, or `none` for a nil error. -/
structure Env where
  lstat : String → LstatResult
  mkdirAll : String → Option String
  sshfs : String → ExecResult
  umount : String → Option String

/-- A call the driver makes to the operating system, with its outcome where
the outcome changes the system. -/
inductive Event where
  | lstat (path : String)
  | mkdirAll (path : String) (ok : Bool)
  | sshfs (cmd : String) (destination : String) (ok : Bool)
  | umount (cmd : String) (target : String) (ok : Bool)
  deriving DecidableEq, Repr

/-- The event is a started mount process. -/
def Event.isSshfs : Event → Bool
  | .sshfs _ _ _ => true
  | _ => false

/-- The event is a run of the unmount command. -/
def Event.isUmount : Event → Bool
  | .umount _ _ _ => true
  | _ => false

/-- The event is a child process. -/
def Event.isProcess (e : Event) : Bool := e.isSshfs || e.isUmount

/-- The event is a directory creation that succeeded. -/
def Event.isMkdirOk : Event → Bool
  | .mkdirAll _ ok => ok
  | _ => false

/-- What a driver method leaves behind: the driver, the response, and the calls
made to the operating system, in order. -/
structure Result where
  d : sshfsDriver
  resp : Response
  events : List Event
  deriving DecidableEq, Repr

/-! ## The driver -/

/-- Go `newSshfsDriver`. -/
def newSshfsDriver (root : String) : sshfsDriver := ⟨root, []⟩

/-- Go `sshfsDriver.mountpoint`. -/
def sshfsDriver.mountpoint (d : sshfsDriver) (name : String) : String :=
  filepath.Join d.root name

deriving instance DecidableEq for Except

/-- The error text of `mountVolume` for a name with more than one `#`. -/
def invalidName : String := "invalid name, use [user@]host#[dir]"

/-- The first lines of `mountVolume`: the name is split at `#`; one part gives
`name:/`, two parts give `part0:part1`, more is an error. -/
def mountSource (name : String) : Except String String :=
  match splitOn '#' name.data with
  | [_] => .ok (name ++ ":/")
  | [p0, p1] => .ok (String.mk p0 ++ ":" ++ String.mk p1)
  | _ => .error invalidName

/-- The command line `fmt.Sprintf("sshfs %s  %s", name, destination)`. -/
def sshfsCmd (source destination : String) : String :=
  "sshfs " ++ source ++ "  " ++ destination

/-- Go `sshfsDriver.mountVolume`: the returned error (`none` for nil) and the
process started, if any. -/
def mountVolume (env : Env) (name destination : String) : Option String × List Event :=
  match mountSource name with
  | .error e => (some e, [])
  | .ok source =>
    let cmd := sshfsCmd source destination
    match env.sshfs cmd with
    | .pipeFailed err => (some err, [])
    | .startFailed err => (some err, [.sshfs cmd destination false])
    | .waitFailed err _ => (some err, [.sshfs cmd destination false])
    | .exited0 => (none, [.sshfs cmd destination true])

/-- The command line `fmt.Sprintf("umount %s", target)`. -/
def umountCmd (target : String) : String := "umount " ++ target

/-- Go `sshfsDriver.unmountVolume`. -/
def unmountVolume (env : Env) (target : String) : Option String × List Event :=
  match env.umount (umountCmd target) with
  | some err => (some err, [.umount (umountCmd target) target false])
  | none => (none, [.umount (umountCmd target) target true])

/-- Go `sshfsDriver.Create`. -/
def sshfsDriver.Create (d : sshfsDriver) (_r : Request) : Result := ⟨d, Response.zero, []⟩

/-- Go `sshfsDriver.Remove`. -/
def sshfsDriver.Remove (d : sshfsDriver) (r : Request) : Result :=
  let m := d.mountpoint r.Name
  match d.volumes.get m with
  | some s =>
    if s.connections ≤ 1 then ⟨⟨d.root, d.volumes.delete m⟩, Response.zero, []⟩
    else ⟨d, Response.zero, []⟩
  | none => ⟨d, Response.zero, []⟩

/-- Go `sshfsDriver.Path`. -/
def sshfsDriver.Path (d : sshfsDriver) (r : Request) : Result :=
  ⟨d, Response.ofMountpoint (d.mountpoint r.Name), []⟩

/-- The text `fmt.Sprintf("%v already exist and it's not a directory\n", m)`. -/
def notADirectory (m : String) : String :=
  m ++ " already exist and it's not a directory\n"

/-- Lines 98 to 106 of `Mount`: the external mount and, when it succeeds, the
new entry with one connection; `evs` are the calls made before. -/
def mountAndRecord (env : Env) (d : sshfsDriver) (r : Request) (m : String)
    (evs : List Event) : Result :=
  match mountVolume env r.Name m with
  | (some err, es) => ⟨d, Response.ofErr err, evs ++ es⟩
  | (none, es) =>
    ⟨⟨d.root, d.volumes.set m ⟨r.Name, 1⟩⟩, Response.ofMountpoint m, evs ++ es⟩

/-- Lines 81 to 106 of `Mount`, taken when the volume is not counted as
mounted: the mountpoint is checked, created when missing, and mounted. -/
def mountFresh (env : Env) (d : sshfsDriver) (r : Request) (m : String) : Result :=
  match env.lstat m with
  | .notExist =>
    match env.mkdirAll m with
    | some err => ⟨d, Response.ofErr err, [.lstat m, .mkdirAll m false]⟩
    | none => mountAndRecord env d r m [.lstat m, .mkdirAll m true]
  | .error err => ⟨d, Response.ofErr err, [.lstat m]⟩
  | .info isDir =>
    if !isDir then ⟨d, Response.ofErr (notADirectory m), [.lstat m]⟩
    else mountAndRecord env d r m [.lstat m]

/-- Go `sshfsDriver.Mount`. -/
def sshfsDriver.Mount (d : sshfsDriver) (env : Env) (r : Request) : Result :=
  let m := d.mountpoint r.Name
  match d.volumes.get m with
  | some s =>
    if s.connections > 0 then
      ⟨⟨d.root, d.volumes.set m ⟨s.name, s.connections + 1⟩⟩, Response.ofMountpoint m, []⟩
    else mountFresh env d r m
  | none => mountFresh env d r m

/-- The text `fmt.Sprintf("Unable to find volume mounted on %s", m)`. -/
def notMounted (m : String) : String := "Unable to find volume mounted on " ++ m

/-- Go `sshfsDriver.Unmount`. -/
def sshfsDriver.Unmount (d : sshfsDriver) (env : Env) (r : Request) : Result :=
  let m := d.mountpoint r.Name
  match d.volumes.get m with
  | some s =>
    if s.connections = 1 then
      match unmountVolume env m with
      | (some err, es) => ⟨d, Response.ofErr err, es⟩
      | (none, es) =>
        ⟨⟨d.root, d.volumes.set m ⟨s.name, s.connections - 1⟩⟩, Response.zero, es⟩
    else ⟨⟨d.root, d.volumes.set m ⟨s.name, s.connections - 1⟩⟩, Response.zero, []⟩
  | none => ⟨d, Response.ofErr (notMounted m), []⟩

/-- Go `sshfsDriver.Get`. -/
def sshfsDriver.Get (d : sshfsDriver) (r : Request) : Result :=
  let m := d.mountpoint r.Name
  match d.volumes.get m with
  | some s => ⟨d, ⟨"", "", [], some ⟨s.name, d.mountpoint s.name⟩, ""⟩, []⟩
  | none => ⟨d, Response.ofErr (notMounted m), []⟩

/-- Go `sshfsDriver.List`; the entries come in the order of the association
list, Go gives them in an unspecified order. -/
def sshfsDriver.List (d : sshfsDriver) (_r : Request) : Result :=
  ⟨d, ⟨"", "", d.volumes.map (fun kv => ⟨kv.2.name, d.mountpoint kv.2.name⟩), none, ""⟩, []⟩

/-- Go `sshfsDriver.Capabilities`. -/
def sshfsDriver.Capabilities (d : sshfsDriver) (_r : Request) : Result :=
  ⟨d, ⟨"", "", [], none, "global"⟩, []⟩

/-! ## Sequences of calls -/

/-- The methods of the driver that the plugin handler calls. -/
inductive Op where
  | Create
  | Remove
  | Path
  | Mount
  | Unmount
  | Get
  | List
  | Capabilities
  deriving DecidableEq, Repr

/-- One call of the plugin handler: the method, the request, and what the
operating system answers during the call. -/
structure Call where
  op : Op
  r : Request
  env : Env

/-- The method named by the call, applied to the driver. -/
def sshfsDriver.call (d : sshfsDriver) (c : Call) : Result :=
  match c.op with
  | .Create => d.Create c.r
  | .Remove => d.Remove c.r
  | .Path => d.Path c.r
  | .Mount => d.Mount c.env c.r
  | .Unmount => d.Unmount c.env c.r
  | .Get => d.Get c.r
  | .List => d.List c.r
  | .Capabilities => d.Capabilities c.r

/-- The driver after the calls, made one after the other. -/
def runCalls : sshfsDriver → List Call → sshfsDriver
  | d, [] => d
  | d, c :: cs => runCalls (d.call c).d cs

/-- The result of each of the calls, made one after the other. -/
def traceCalls : sshfsDriver → List Call → List Result
  | _, [] => []
  | d, c :: cs => d.call c :: traceCalls (d.call c).d cs

/-- The calls `Mount(name)`, one for each answer of the operating system. -/
def mountCalls (name : String) (envs : List Env) : List Call :=
  envs.map (fun e => ⟨.Mount, ⟨name⟩, e⟩)

/-- The calls `Unmount(name)`, one for each answer of the operating system. -/
def unmountCalls (name : String) (envs : List Env) : List Call :=
  envs.map (fun e => ⟨.Unmount, ⟨name⟩, e⟩)

/-- The number of mount processes started during a call. -/
def Result.sshfsCount (res : Result) : Nat := (res.events.filter Event.isSshfs).length

/-! ## The external mount state -/

/-- The mountpoints at which the file system is mounted, after one more call to
the operating system: a mount process that succeeds mounts its destination,
an unmount command that succeeds unmounts its target. -/
def applyEvent (mounted : String → Bool) : Event → String → Bool
  | .sshfs _ destination true => fun p => if p = destination then true else mounted p
  | .umount _ target true => fun p => if p = target then false else mounted p
  | _ => mounted

/-- The driver together with the mountpoints at which the file system is
mounted. -/
structure World where
  d : sshfsDriver
  mounted : String → Bool

/-- The world in which the driver starts: an empty registry, nothing mounted. -/
def World.init (root : String) : World := ⟨newSshfsDriver root, fun _ => false⟩

/-- One call of the driver, and its effect on what is mounted. -/
def World.call (w : World) (c : Call) : World :=
  ⟨(w.d.call c).d, (w.d.call c).events.foldl applyEvent w.mounted⟩

/-- The world after the calls, made one after the other. -/
def World.run (w : World) : List Call → World
  | [] => w
  | c :: cs => World.run (w.call c) cs

/-- The call is a `Remove` of a name whose entry has exactly one connection. -/
def liveRemove (d : sshfsDriver) (c : Call) : Bool :=
  match c.op with
  | .Remove =>
    match d.volumes.get (d.mountpoint c.r.Name) with
    | some s => decide (s.connections = 1)
    | none => false
  | _ => false

/-- None of the calls, made one after the other from `d`, is a `Remove` of a
name whose entry has exactly one connection at that time. -/
def noLiveRemove : sshfsDriver → List Call → Bool
  | _, [] => true
  | d, c :: cs => !liveRemove d c && noLiveRemove (d.call c).d cs

/-- Every registry entry with at least one connection has the file system
mounted at its mountpoint. -/
def World.countedMounted (w : World) : Prop :=
  ∀ m s, w.d.volumes.get m = some s → 1 ≤ s.connections → w.mounted m = true

/-- The file system is mounted only at mountpoints that have a registry entry
with at least one connection. -/
def World.mountedCounted (w : World) : Prop :=
  ∀ m, w.mounted m = true → ∃ s, w.d.volumes.get m = some s ∧ 1 ≤ s.connections

/-- Every registry entry is stored under the mountpoint of its own name. -/
def keysMatch (d : sshfsDriver) : Prop :=
  ∀ kv ∈ d.volumes, d.mountpoint kv.2.name = kv.1

/-- The text `s` contains the text `t`, as Go `strings.Contains(s, t)`. -/
def containsText (s t : String) : Prop := t.data <:+: s.data

instance (s t : String) : Decidable (containsText s t) :=
  inferInstanceAs (Decidable (t.data <:+: s.data))

/-- A path element that `filepath.Clean` keeps as it is: not empty, not `.`
and not `..`. -/
def realElement (el : List Char) : Bool :=
  !(decide (el = []) || decide (el = ['.']) || decide (el = ['.', '.']))

/-- A name that is a relative path in clean form: every element between its
slashes is kept by `filepath.Clean`. -/
def plainName (name : String) : Bool :=
  (splitOn '/' name.data).all realElement

/-! ## Concrete answers of the operating system -/

/-- The mountpoint is a directory and both commands succeed. -/
def envOk : Env := ⟨fun _ => .info true, fun _ => none, fun _ => .exited0, fun _ => none⟩

/-- The mountpoint is missing, it can be created, and both commands succeed. -/
def envMissing : Env := ⟨fun _ => .notExist, fun _ => none, fun _ => .exited0, fun _ => none⟩

/-- The mountpoint is a directory, mounting succeeds, unmounting fails. -/
def envBusy : Env :=
  ⟨fun _ => .info true, fun _ => none, fun _ => .exited0, fun _ => some "exit status 32"⟩

/-- The mountpoint is a directory and the mount process exits with an error. -/
def envRefused : Env :=
  ⟨fun _ => .info true, fun _ => none,
   fun _ => .waitFailed "exit status 1" "read: Connection reset by peer", fun _ => none⟩

/-- The mountpoint exists and is not a directory; both commands succeed. -/
def envFile : Env := ⟨fun _ => .info false, fun _ => none, fun _ => .exited0, fun _ => none⟩

/-! ## The registry as a map -/

theorem Registry.get_set_self (vs : Registry) (m : String) (v : volume_name) :
    (vs.set m v).get m = some v := by
  induction vs with
  | nil => simp [Registry.set, Registry.get]
  | cons kv t ih =>
    obtain ⟨k, w⟩ := kv
    by_cases h : k = m
    · simp [Registry.set, Registry.get, h]
    · simp [Registry.set, Registry.get, h, ih]

theorem Registry.get_set_other (vs : Registry) (m k : String) (v : volume_name)
    (h : k ≠ m) : (vs.set m v).get k = vs.get k := by
  induction vs with
  | nil => simp [Registry.set, Registry.get, Ne.symm h]
  | cons kv t ih =>
    obtain ⟨k0, w⟩ := kv
    by_cases h0 : k0 = m
    · subst h0
      simp [Registry.set, Registry.get, Ne.symm h]
    · by_cases h1 : k0 = k
      · subst h1
        simp [Registry.set, Registry.get, h0]
      · simp [Registry.set, Registry.get, h0, h1, ih]

theorem Registry.get_delete_self (vs : Registry) (m : String) :
    (vs.delete m).get m = none := by
  induction vs with
  | nil => simp [Registry.delete, Registry.get]
  | cons kv t ih =>
    obtain ⟨k, w⟩ := kv
    by_cases h : k = m
    · simp [Registry.delete, h, ih]
    · simp [Registry.delete, Registry.get, h, ih]

theorem Registry.get_delete_other (vs : Registry) (m k : String) (h : k ≠ m) :
    (vs.delete m).get k = vs.get k := by
  induction vs with
  | nil => simp [Registry.delete, Registry.get]
  | cons kv t ih =>
    obtain ⟨k0, w⟩ := kv
    by_cases h0 : k0 = m
    · subst h0
      simp [Registry.delete, Registry.get, Ne.symm h, ih]
    · by_cases h1 : k0 = k
      · subst h1
        simp [Registry.delete, Registry.get, h0]
      · simp [Registry.delete, Registry.get, h0, h1, ih]

/-! ## Single calls -/

theorem mountVolume_ok {env : Env} {name m : String}
    (h : (mountVolume env name m).1 = none) :
    ∃ cmd, mountVolume env name m = (none, [Event.sshfs cmd m true]) := by
  unfold mountVolume at h ⊢
  cases hs : mountSource name with
  | error e => simp [hs] at h
  | ok source =>
    simp only [hs] at h ⊢
    cases hx : env.sshfs (sshfsCmd source m) with
    | pipeFailed err => simp [hx] at h
    | startFailed err => simp [hx] at h
    | waitFailed err t => simp [hx] at h
    | exited0 => exact ⟨sshfsCmd source m, rfl⟩

theorem mountVolume_events (env : Env) (name m : String) :
    ∀ e ∈ (mountVolume env name m).2, e.isSshfs = true := by
  unfold mountVolume
  cases mountSource name with
  | error e => simp
  | ok source =>
    cases hx : env.sshfs (sshfsCmd source m) <;> simp [hx, Event.isSshfs]

theorem Mount_counted (root : String) (vs : Registry) (env : Env) (r : Request)
    (s : volume_name) (h : vs.get (filepath.Join root r.Name) = some s)
    (hc : 0 < s.connections) :
    sshfsDriver.Mount ⟨root, vs⟩ env r =
      ⟨⟨root, vs.set (filepath.Join root r.Name) ⟨s.name, s.connections + 1⟩⟩,
        Response.ofMountpoint (filepath.Join root r.Name), []⟩ := by
  simp [sshfsDriver.Mount, sshfsDriver.mountpoint, h, hc]

theorem Mount_uncounted (root : String) (vs : Registry) (env : Env) (r : Request)
    (h : ∀ s, vs.get (filepath.Join root r.Name) = some s → s.connections ≤ 0) :
    sshfsDriver.Mount ⟨root, vs⟩ env r =
      mountFresh env ⟨root, vs⟩ r (filepath.Join root r.Name) := by
  unfold sshfsDriver.Mount
  simp only [sshfsDriver.mountpoint]
  cases hg : vs.get (filepath.Join root r.Name) with
  | none => rfl
  | some s =>
    have := h s hg
    simp [not_lt.mpr this]

theorem mountFresh_ok (env : Env) (root : String) (vs : Registry) (r : Request) (m : String)
    (hdir : env.lstat m = .info true ∨ (env.lstat m = .notExist ∧ env.mkdirAll m = none))
    (hmount : (mountVolume env r.Name m).1 = none) :
    (mountFresh env ⟨root, vs⟩ r m).d = ⟨root, vs.set m ⟨r.Name, 1⟩⟩ ∧
    (mountFresh env ⟨root, vs⟩ r m).resp = Response.ofMountpoint m ∧
    (mountFresh env ⟨root, vs⟩ r m).sshfsCount = 1 := by
  obtain ⟨cmd, hcmd⟩ := mountVolume_ok hmount
  rcases hdir with hd | ⟨hd, hk⟩
  · simp [mountFresh, hd, mountAndRecord, hcmd, Result.sshfsCount, Event.isSshfs]
  · simp [mountFresh, hd, hk, mountAndRecord, hcmd, Result.sshfsCount, Event.isSshfs]

theorem call_root (d : sshfsDriver) (c : Call) : (d.call c).d.root = d.root := by
  obtain ⟨root, vs⟩ := d
  obtain ⟨op, r, env⟩ := c
  cases op
  · rfl
  · simp only [sshfsDriver.call, sshfsDriver.Remove]
    split
    · split <;> rfl
    · rfl
  · rfl
  · simp only [sshfsDriver.call, sshfsDriver.Mount]
    have hrec : ∀ evs, (mountAndRecord env ⟨root, vs⟩ r
        (sshfsDriver.mountpoint ⟨root, vs⟩ r.Name) evs).d.root = root := by
      intro evs
      unfold mountAndRecord
      split <;> rfl
    have hfresh : (mountFresh env ⟨root, vs⟩ r
        (sshfsDriver.mountpoint ⟨root, vs⟩ r.Name)).d.root = root := by
      unfold mountFresh
      split
      · split
        · rfl
        · exact hrec _
      · rfl
      · split
        · rfl
        · exact hrec _
    split
    · split
      · rfl
      · exact hfresh
    · exact hfresh
  · simp only [sshfsDriver.call, sshfsDriver.Unmount]
    split
    · split
      · split <;> rfl
      · rfl
    · rfl
  · simp only [sshfsDriver.call, sshfsDriver.Get]
    split <;> rfl
  · rfl
  · rfl

/-! ## Repeated mounts and unmounts -/

theorem mounts_counted (root name : String) :
    ∀ (es : List Env) (vs : Registry) (nm : String) (k : Int),
      vs.get (filepath.Join root name) = some ⟨nm, k⟩ → 0 < k →
      (traceCalls ⟨root, vs⟩ (mountCalls name es)).map Result.resp =
          List.replicate es.length (Response.ofMountpoint (filepath.Join root name)) ∧
        (traceCalls ⟨root, vs⟩ (mountCalls name es)).map Result.sshfsCount =
          List.replicate es.length 0 ∧
        ∃ vs1, runCalls ⟨root, vs⟩ (mountCalls name es) = ⟨root, vs1⟩ ∧
          vs1.get (filepath.Join root name) = some ⟨nm, k + es.length⟩ := by
  intro es
  induction es with
  | nil =>
    intro vs nm k h _
    simp [mountCalls, traceCalls, runCalls, h]
  | cons e es ih =>
    intro vs nm k h hk
    have hstep := Mount_counted root vs e ⟨name⟩ ⟨nm, k⟩ h hk
    simp only at hstep
    have hget := Registry.get_set_self vs (filepath.Join root name) ⟨nm, k + 1⟩
    obtain ⟨h1, h2, vs1, h3, h4⟩ := ih _ nm (k + 1) hget (by omega)
    simp only [mountCalls] at h1 h2 h3 ⊢
    simp only [List.map_cons, traceCalls, runCalls, sshfsDriver.call, hstep, h1, h2,
      List.length_cons, List.replicate_succ]
    refine ⟨trivial, ?_, vs1, h3, ?_⟩
    · simp [Result.sshfsCount]
    · rw [h4]
      congr 2
      push_cast
      ring

theorem runCalls_append (d : sshfsDriver) (a b : List Call) :
    runCalls d (a ++ b) = runCalls (runCalls d a) b := by
  induction a generalizing d with
  | nil => rfl
  | cons c cs ih => simp [runCalls, ih]

theorem Unmount_ok (root : String) (vs : Registry) (env : Env) (r : Request)
    (s : volume_name) (h : vs.get (filepath.Join root r.Name) = some s)
    (hu : env.umount (umountCmd (filepath.Join root r.Name)) = none) :
    (sshfsDriver.Unmount ⟨root, vs⟩ env r).d =
        ⟨root, vs.set (filepath.Join root r.Name) ⟨s.name, s.connections - 1⟩⟩ ∧
      (sshfsDriver.Unmount ⟨root, vs⟩ env r).resp = Response.zero := by
  by_cases hc : s.connections = 1
  · simp [sshfsDriver.Unmount, sshfsDriver.mountpoint, h, hc, unmountVolume, hu]
  · simp [sshfsDriver.Unmount, sshfsDriver.mountpoint, h, hc]

theorem unmounts_counted (root name : String) :
    ∀ (us : List Env) (vs : Registry) (nm : String) (k : Int),
      vs.get (filepath.Join root name) = some ⟨nm, k⟩ →
      (∀ u ∈ us, u.umount (umountCmd (filepath.Join root name)) = none) →
      ∃ vs1, runCalls ⟨root, vs⟩ (unmountCalls name us) = ⟨root, vs1⟩ ∧
        vs1.get (filepath.Join root name) = some ⟨nm, k - us.length⟩ := by
  intro us
  induction us with
  | nil =>
    intro vs nm k h _
    exact ⟨vs, rfl, by simp [h]⟩
  | cons u us ih =>
    intro vs nm k h hu
    have hstep := (Unmount_ok root vs u ⟨name⟩ ⟨nm, k⟩ h (hu u (by simp))).1
    simp only at hstep
    have hget := Registry.get_set_self vs (filepath.Join root name) ⟨nm, k - 1⟩
    obtain ⟨vs1, h3, h4⟩ := ih _ nm (k - 1) hget (fun v hv => hu v (by simp [hv]))
    simp only [unmountCalls] at h3 ⊢
    simp only [List.map_cons, runCalls, sshfsDriver.call, hstep]
    refine ⟨vs1, h3, ?_⟩
    rw [h4]
    congr 2
    simp only [List.length_cons]
    push_cast
    ring

/-! ## The effect of one call on the registry and on what is mounted -/

theorem mountVolume_cases (env : Env) (name m : String) :
    (∃ cmd, mountVolume env name m = (none, [Event.sshfs cmd m true])) ∨
      (∃ err, mountVolume env name m = (some err, [])) ∨
      (∃ err cmd, mountVolume env name m = (some err, [Event.sshfs cmd m false])) := by
  unfold mountVolume
  cases mountSource name with
  | error e => exact Or.inr (Or.inl ⟨e, rfl⟩)
  | ok source =>
    cases hx : env.sshfs (sshfsCmd source m) with
    | pipeFailed err => exact Or.inr (Or.inl ⟨err, by simp [hx]⟩)
    | startFailed err => exact Or.inr (Or.inr ⟨err, sshfsCmd source m, by simp [hx]⟩)
    | waitFailed err t => exact Or.inr (Or.inr ⟨err, sshfsCmd source m, by simp [hx]⟩)
    | exited0 => exact Or.inl ⟨sshfsCmd source m, by simp [hx]⟩

theorem mountAndRecord_cases (env : Env) (d : sshfsDriver) (r : Request) (m : String)
    (evs : List Event) (mounted : String → Bool)
    (hevs : evs.foldl applyEvent mounted = mounted) :
    ((mountAndRecord env d r m evs).d = d ∧
        (mountAndRecord env d r m evs).events.foldl applyEvent mounted = mounted) ∨
      ((mountAndRecord env d r m evs).d = ⟨d.root, d.volumes.set m ⟨r.Name, 1⟩⟩ ∧
        (mountAndRecord env d r m evs).events.foldl applyEvent mounted =
          fun p => if p = m then true else mounted p) := by
  rcases mountVolume_cases env r.Name m with ⟨cmd, h⟩ | ⟨err, h⟩ | ⟨err, cmd, h⟩
  · right
    simp [mountAndRecord, h, List.foldl_append, hevs, applyEvent]
  · left
    simp [mountAndRecord, h, hevs]
  · left
    simp [mountAndRecord, h, List.foldl_append, hevs, applyEvent]

theorem mountFresh_cases (env : Env) (d : sshfsDriver) (r : Request) (m : String)
    (mounted : String → Bool) :
    ((mountFresh env d r m).d = d ∧
        (mountFresh env d r m).events.foldl applyEvent mounted = mounted) ∨
      ((mountFresh env d r m).d = ⟨d.root, d.volumes.set m ⟨r.Name, 1⟩⟩ ∧
        (mountFresh env d r m).events.foldl applyEvent mounted =
          fun p => if p = m then true else mounted p) := by
  unfold mountFresh
  cases hl : env.lstat m with
  | notExist =>
    cases hk : env.mkdirAll m with
    | some err => left; simp [applyEvent]
    | none => exact mountAndRecord_cases env d r m _ mounted (by simp [applyEvent])
  | error err => left; simp [applyEvent]
  | info isDir =>
    cases isDir with
    | false => left; simp [applyEvent]
    | true => exact mountAndRecord_cases env d r m _ mounted (by simp [applyEvent])

/-- What one call does to the registry and to what is mounted: nothing, or one
of five changes at the mountpoint of the requested name. -/
theorem World.call_cases (w : World) (c : Call) :
    ((w.call c).d = w.d ∧ (w.call c).mounted = w.mounted) ∨
      (∃ s, c.op = .Mount ∧ w.d.volumes.get (w.d.mountpoint c.r.Name) = some s ∧
        0 < s.connections ∧
        (w.call c).d = ⟨w.d.root, w.d.volumes.set (w.d.mountpoint c.r.Name)
          ⟨s.name, s.connections + 1⟩⟩ ∧
        (w.call c).mounted = w.mounted) ∨
      (c.op = .Mount ∧
        (∀ s, w.d.volumes.get (w.d.mountpoint c.r.Name) = some s → s.connections ≤ 0) ∧
        (w.call c).d = ⟨w.d.root, w.d.volumes.set (w.d.mountpoint c.r.Name) ⟨c.r.Name, 1⟩⟩ ∧
        (w.call c).mounted = fun p => if p = w.d.mountpoint c.r.Name then true else w.mounted p) ∨
      (∃ s, c.op = .Unmount ∧ w.d.volumes.get (w.d.mountpoint c.r.Name) = some s ∧
        s.connections = 1 ∧
        (w.call c).d = ⟨w.d.root, w.d.volumes.set (w.d.mountpoint c.r.Name)
          ⟨s.name, s.connections - 1⟩⟩ ∧
        (w.call c).mounted =
          fun p => if p = w.d.mountpoint c.r.Name then false else w.mounted p) ∨
      (∃ s, c.op = .Unmount ∧ w.d.volumes.get (w.d.mountpoint c.r.Name) = some s ∧
        s.connections ≠ 1 ∧
        (w.call c).d = ⟨w.d.root, w.d.volumes.set (w.d.mountpoint c.r.Name)
          ⟨s.name, s.connections - 1⟩⟩ ∧
        (w.call c).mounted = w.mounted) ∨
      (∃ s, c.op = .Remove ∧ w.d.volumes.get (w.d.mountpoint c.r.Name) = some s ∧
        s.connections ≤ 1 ∧
        (w.call c).d = ⟨w.d.root, w.d.volumes.delete (w.d.mountpoint c.r.Name)⟩ ∧
        (w.call c).mounted = w.mounted) := by
  obtain ⟨d, mounted⟩ := w
  obtain ⟨op, r, env⟩ := c
  simp only [World.call]
  cases op
  · left; exact ⟨rfl, rfl⟩
  · simp only [sshfsDriver.call, sshfsDriver.Remove]
    cases hg : d.volumes.get (d.mountpoint r.Name) with
    | none => left; exact ⟨rfl, rfl⟩
    | some s =>
      by_cases hc : s.connections ≤ 1
      · right; right; right; right; right
        exact ⟨s, trivial, rfl, hc, by simp [hc], by simp [hc]⟩
      · left
        simp [hc]
  · left; exact ⟨rfl, rfl⟩
  · simp only [sshfsDriver.call, sshfsDriver.Mount]
    cases hg : d.volumes.get (d.mountpoint r.Name) with
    | none =>
      rcases mountFresh_cases env d r (d.mountpoint r.Name) mounted with h | h
      · left; exact h
      · right; right; left
        exact ⟨trivial, by simp, h.1, h.2⟩
    | some s =>
      by_cases hc : 0 < s.connections
      · right; left
        exact ⟨s, trivial, rfl, hc, by simp [hc], by simp [hc]⟩
      · simp only [gt_iff_lt, hc, if_false]
        rcases mountFresh_cases env d r (d.mountpoint r.Name) mounted with h | h
        · left; exact h
        · right; right; left
          refine ⟨trivial, ?_, h.1, h.2⟩
          intro s1 hs1
          simp only [Option.some.injEq] at hs1
          subst hs1
          exact not_lt.mp hc
  · simp only [sshfsDriver.call, sshfsDriver.Unmount]
    cases hg : d.volumes.get (d.mountpoint r.Name) with
    | none => left; exact ⟨rfl, rfl⟩
    | some s =>
      by_cases hc : s.connections = 1
      · cases hu : env.umount (umountCmd (d.mountpoint r.Name)) with
        | some err =>
          left
          simp [hc, unmountVolume, hu, applyEvent]
        | none =>
          right; right; right; left
          refine ⟨s, trivial, rfl, hc, by simp [hc, unmountVolume, hu], ?_⟩
          simp [hc, unmountVolume, hu, applyEvent]
      · right; right; right; right; left
        exact ⟨s, trivial, rfl, hc, by simp [hc], by simp [hc]⟩
  · simp only [sshfsDriver.call, sshfsDriver.Get]
    cases hg : d.volumes.get (d.mountpoint r.Name) with
    | none => left; exact ⟨rfl, rfl⟩
    | some s => left; exact ⟨rfl, rfl⟩
  · left; exact ⟨rfl, rfl⟩
  · left; exact ⟨rfl, rfl⟩

theorem World.countedMounted_call (w : World) (c : Call) (h : w.countedMounted) :
    (w.call c).countedMounted := by
  intro m s hs h1
  rcases World.call_cases w c with ⟨hd, hm⟩ | ⟨s0, -, hg, hc, hd, hm⟩ | ⟨-, -, hd, hm⟩ |
    ⟨s0, -, hg, hc, hd, hm⟩ | ⟨s0, -, hg, hc, hd, hm⟩ | ⟨s0, -, hg, hc, hd, hm⟩
  · rw [hm]
    rw [hd] at hs
    exact h m s hs h1
  · rw [hm]
    rw [hd] at hs
    by_cases hk : m = w.d.mountpoint c.r.Name
    · subst hk
      exact h _ s0 hg (by omega)
    · rw [Registry.get_set_other _ _ _ _ hk] at hs
      exact h m s hs h1
  · rw [hm]
    rw [hd] at hs
    by_cases hk : m = w.d.mountpoint c.r.Name
    · simp [hk]
    · rw [Registry.get_set_other _ _ _ _ hk] at hs
      simp only [hk, if_false]
      exact h m s hs h1
  · rw [hm]
    rw [hd] at hs
    by_cases hk : m = w.d.mountpoint c.r.Name
    · subst hk
      rw [Registry.get_set_self] at hs
      simp only [Option.some.injEq] at hs
      subst hs
      simp only at h1
      omega
    · rw [Registry.get_set_other _ _ _ _ hk] at hs
      simp only [hk, if_false]
      exact h m s hs h1
  · rw [hm]
    rw [hd] at hs
    by_cases hk : m = w.d.mountpoint c.r.Name
    · subst hk
      rw [Registry.get_set_self] at hs
      simp only [Option.some.injEq] at hs
      subst hs
      simp only at h1
      exact h _ s0 hg (by omega)
    · rw [Registry.get_set_other _ _ _ _ hk] at hs
      exact h m s hs h1
  · rw [hm]
    rw [hd] at hs
    by_cases hk : m = w.d.mountpoint c.r.Name
    · subst hk
      rw [Registry.get_delete_self] at hs
      simp at hs
    · rw [Registry.get_delete_other _ _ _ hk] at hs
      exact h m s hs h1

theorem World.mountedCounted_call (w : World) (c : Call) (hlive : liveRemove w.d c = false)
    (h : w.mountedCounted) : (w.call c).mountedCounted := by
  intro m hmt
  rcases World.call_cases w c with ⟨hd, hm⟩ | ⟨s0, -, hg, hc, hd, hm⟩ | ⟨-, -, hd, hm⟩ |
    ⟨s0, -, hg, hc, hd, hm⟩ | ⟨s0, -, hg, hc, hd, hm⟩ | ⟨s0, hop, hg, hc, hd, hm⟩
  · rw [hm] at hmt
    rw [hd]
    exact h m hmt
  · rw [hm] at hmt
    rw [hd]
    by_cases hk : m = w.d.mountpoint c.r.Name
    · subst hk
      exact ⟨_, Registry.get_set_self _ _ _, by simp only; omega⟩
    · simp only [Registry.get_set_other _ _ _ _ hk]
      exact h m hmt
  · rw [hm] at hmt
    rw [hd]
    by_cases hk : m = w.d.mountpoint c.r.Name
    · subst hk
      exact ⟨_, Registry.get_set_self _ _ _, le_refl _⟩
    · simp only [hk, if_false] at hmt
      simp only [Registry.get_set_other _ _ _ _ hk]
      exact h m hmt
  · rw [hm] at hmt
    rw [hd]
    by_cases hk : m = w.d.mountpoint c.r.Name
    · simp [hk] at hmt
    · simp only [hk, if_false] at hmt
      simp only [Registry.get_set_other _ _ _ _ hk]
      exact h m hmt
  · rw [hm] at hmt
    rw [hd]
    by_cases hk : m = w.d.mountpoint c.r.Name
    · subst hk
      obtain ⟨s1, hs1, h1⟩ := h _ hmt
      rw [hg] at hs1
      simp only [Option.some.injEq] at hs1
      subst hs1
      exact ⟨_, Registry.get_set_self _ _ _, by simp only; omega⟩
    · simp only [Registry.get_set_other _ _ _ _ hk]
      exact h m hmt
  · rw [hm] at hmt
    rw [hd]
    by_cases hk : m = w.d.mountpoint c.r.Name
    · subst hk
      obtain ⟨s1, hs1, h1⟩ := h _ hmt
      rw [hg] at hs1
      simp only [Option.some.injEq] at hs1
      subst hs1
      have hne : s0.connections ≠ 1 := by
        intro h0
        simp [liveRemove, hop, hg, h0] at hlive
      omega
    · simp only [Registry.get_delete_other _ _ _ hk]
      exact h m hmt

theorem World.countedMounted_run (cs : List Call) :
    ∀ w : World, w.countedMounted → (w.run cs).countedMounted := by
  induction cs with
  | nil => intro w h; exact h
  | cons c cs ih => intro w h; exact ih _ (World.countedMounted_call w c h)

theorem World.mountedCounted_run (cs : List Call) :
    ∀ w : World, noLiveRemove w.d cs = true → w.mountedCounted →
      (w.run cs).mountedCounted := by
  induction cs with
  | nil => intro w _ h; exact h
  | cons c cs ih =>
    intro w hl h
    simp only [noLiveRemove, Bool.and_eq_true, Bool.not_eq_true'] at hl
    exact ih _ hl.2 (World.mountedCounted_call w c hl.1 h)

/-! ## Splitting a name at its separators -/

theorem splitOn_length (sep : Char) (l : List Char) :
    (splitOn sep l).length = l.count sep + 1 := by
  induction l with
  | nil => simp [splitOn]
  | cons c cs ih =>
    by_cases h : c = sep
    · subst h
      simp [splitOn, ih]
    · have hc : (c == sep) = false := by simpa using h
      cases hs : splitOn sep cs with
      | nil => simp [hs] at ih
      | cons p ps =>
        rw [hs] at ih
        simp only [List.length_cons] at ih
        simp [splitOn, h, hs, List.count_cons, hc, ih]

theorem splitOn_of_not_mem (sep : Char) (l : List Char) (h : sep ∉ l) :
    splitOn sep l = [l] := by
  induction l with
  | nil => rfl
  | cons c cs ih =>
    simp only [List.mem_cons, not_or] at h
    simp [splitOn, Ne.symm h.1, ih h.2]

theorem splitOn_append_sep (sep : Char) (p q : List Char) (h : sep ∉ p) :
    splitOn sep (p ++ sep :: q) = p :: splitOn sep q := by
  induction p with
  | nil => simp [splitOn]
  | cons c cs ih =>
    simp only [List.mem_cons, not_or] at h
    simp [splitOn, Ne.symm h.1, ih h.2]

theorem mountSource_invalid (name : String) (h : 2 ≤ name.data.count '#') :
    mountSource name = .error invalidName := by
  have hl := splitOn_length '#' name.data
  unfold mountSource
  cases hs : splitOn '#' name.data with
  | nil => rfl
  | cons a t =>
    cases t with
    | nil => rw [hs] at hl; simp at hl; omega
    | cons b t =>
      cases t with
      | nil => rw [hs] at hl; simp at hl; omega
      | cons c t => rfl

theorem mountVolume_invalid (env : Env) (name destination : String)
    (h : 2 ≤ name.data.count '#') :
    mountVolume env name destination = (some invalidName, []) := by
  simp [mountVolume, mountSource_invalid name h]

/-! ## The claims -/

/-- C1: from a registry with no entry at the mountpoint of `name`, when the
directory check or creation and the external mount succeed for the first
call, `n = es.length + 1` consecutive `Mount(name)` calls all return the
mountpoint without error, start the mount process once, in the first call
only, and leave the entry with `n` connections. -/
theorem C1_mount_once (d : sshfsDriver) (name : String) (e : Env) (es : List Env)
    (hfresh : d.volumes.get (d.mountpoint name) = none)
    (hdir : e.lstat (d.mountpoint name) = .info true ∨
      (e.lstat (d.mountpoint name) = .notExist ∧ e.mkdirAll (d.mountpoint name) = none))
    (hmount : (mountVolume e name (d.mountpoint name)).1 = none) :
    (traceCalls d (mountCalls name (e :: es))).map Result.resp =
        List.replicate (es.length + 1) (Response.ofMountpoint (d.mountpoint name)) ∧
      (traceCalls d (mountCalls name (e :: es))).map Result.sshfsCount =
        1 :: List.replicate es.length 0 ∧
      (runCalls d (mountCalls name (e :: es))).volumes.get (d.mountpoint name) =
        some ⟨name, (es.length + 1 : Nat)⟩ := by
  obtain ⟨root, vs⟩ := d
  simp only [sshfsDriver.mountpoint] at hfresh hdir hmount ⊢
  have hun : sshfsDriver.Mount ⟨root, vs⟩ e ⟨name⟩ =
      mountFresh e ⟨root, vs⟩ ⟨name⟩ (filepath.Join root name) :=
    Mount_uncounted root vs e ⟨name⟩ (by intro s hs; simp [hfresh] at hs)
  obtain ⟨hd, hr, hc⟩ := mountFresh_ok e root vs ⟨name⟩ (filepath.Join root name) hdir hmount
  have hget := Registry.get_set_self vs (filepath.Join root name) ⟨name, 1⟩
  obtain ⟨h1, h2, vs1, h3, h4⟩ := mounts_counted root name es _ name 1 hget (by decide)
  simp only [mountCalls] at h1 h2 h3 ⊢
  simp only [List.map_cons, traceCalls, runCalls, sshfsDriver.call, hun, hd, hr, hc, h1, h2,
    h3, h4, List.replicate_succ]
  refine ⟨trivial, trivial, ?_⟩
  congr 2
  push_cast
  ring

/-- C1 at a concrete input: three `Mount("host")` calls on a new driver. -/
theorem C1_mount_once_witness :
    (traceCalls (newSshfsDriver "/mnt") (mountCalls "host" [envMissing, envOk, envOk])).map
        Result.resp = List.replicate 3 (Response.ofMountpoint "/mnt/host") ∧
      (traceCalls (newSshfsDriver "/mnt") (mountCalls "host" [envMissing, envOk, envOk])).map
        Result.sshfsCount = [1, 0, 0] ∧
      (runCalls (newSshfsDriver "/mnt")
        (mountCalls "host" [envMissing, envOk, envOk])).volumes.get "/mnt/host" =
        some ⟨"host", 3⟩ :=
  C1_mount_once (newSshfsDriver "/mnt") "host" envMissing [envOk, envOk] (by decide)
    (Or.inr ⟨by decide, by decide⟩) (by decide)

/-- C2 fails as stated: after one successful `Mount("host")` on a new driver and
one `Unmount("host")` whose external unmount succeeds, the registry still holds
the entry, with no connection. -/
theorem C2_counterexample :
    (newSshfsDriver "/mnt").volumes.get ((newSshfsDriver "/mnt").mountpoint "host") = none ∧
      (traceCalls (newSshfsDriver "/mnt")
        (mountCalls "host" [envOk] ++ unmountCalls "host" [envOk])).map Result.resp =
        [Response.ofMountpoint "/mnt/host", Response.zero] ∧
      (runCalls (newSshfsDriver "/mnt")
        (mountCalls "host" [envOk] ++ unmountCalls "host" [envOk])).volumes.get
          ((newSshfsDriver "/mnt").mountpoint "host") ≠ none := by
  decide

/-- C2 as amended: after `n = es.length + 1` successful `Mount(name)` calls from
a registry with no entry at the mountpoint, followed by `n` `Unmount(name)`
calls whose external unmount succeeds, the registry still holds the entry
made by the first `Mount`, with no connection left. -/
theorem C2_unmount_keeps_entry (d : sshfsDriver) (name : String) (e : Env)
    (es us : List Env)
    (hfresh : d.volumes.get (d.mountpoint name) = none)
    (hdir : e.lstat (d.mountpoint name) = .info true ∨
      (e.lstat (d.mountpoint name) = .notExist ∧ e.mkdirAll (d.mountpoint name) = none))
    (hmount : (mountVolume e name (d.mountpoint name)).1 = none)
    (hlen : us.length = es.length + 1)
    (hus : ∀ u ∈ us, u.umount (umountCmd (d.mountpoint name)) = none) :
    (runCalls d (mountCalls name (e :: es) ++ unmountCalls name us)).volumes.get
        (d.mountpoint name) = some ⟨name, 0⟩ := by
  obtain ⟨root, vs⟩ := d
  simp only [sshfsDriver.mountpoint] at hfresh hdir hmount hus ⊢
  have hun : sshfsDriver.Mount ⟨root, vs⟩ e ⟨name⟩ =
      mountFresh e ⟨root, vs⟩ ⟨name⟩ (filepath.Join root name) :=
    Mount_uncounted root vs e ⟨name⟩ (by intro s hs; simp [hfresh] at hs)
  obtain ⟨hd, -, -⟩ := mountFresh_ok e root vs ⟨name⟩ (filepath.Join root name) hdir hmount
  have hget := Registry.get_set_self vs (filepath.Join root name) ⟨name, 1⟩
  obtain ⟨-, -, vs1, h3, h4⟩ := mounts_counted root name es _ name 1 hget (by decide)
  obtain ⟨vs2, h5, h6⟩ := unmounts_counted root name us vs1 name _ h4 hus
  have hrun : runCalls ⟨root, vs⟩ (mountCalls name (e :: es)) = ⟨root, vs1⟩ := by
    simp only [mountCalls] at h3 ⊢
    simp only [List.map_cons, runCalls, sshfsDriver.call, hun, hd, h3]
  rw [runCalls_append, hrun, h5]
  simp only [h6, hlen]
  congr 2
  push_cast
  ring

/-- C2 as amended, at a concrete input: two mounts and two unmounts of `host`. -/
theorem C2_unmount_keeps_entry_witness :
    (runCalls (newSshfsDriver "/mnt")
      (mountCalls "host" [envOk, envOk] ++ unmountCalls "host" [envOk, envOk])).volumes.get
        "/mnt/host" = some ⟨"host", 0⟩ :=
  C2_unmount_keeps_entry (newSshfsDriver "/mnt") "host" envOk [envOk] [envOk, envOk]
    (by decide) (Or.inl (by decide)) (by decide) (by decide) (by decide)

/-- C3, the code at the failing input: on a new driver, `Mount("h")` followed by
two `Unmount("h")` calls leaves the entry with `-1` connections; the second
`Unmount` reports no error and runs no command. -/
theorem C3_unmount_below_zero :
    (traceCalls (newSshfsDriver "/mnt")
        (mountCalls "h" [envOk] ++ unmountCalls "h" [envOk, envOk])).map
          (fun res => (res.resp, res.events)) =
        [(Response.ofMountpoint "/mnt/h",
            [Event.lstat "/mnt/h", Event.sshfs "sshfs h:/  /mnt/h" "/mnt/h" true]),
          (Response.zero, [Event.umount "umount /mnt/h" "/mnt/h" true]),
          (Response.zero, [])] ∧
      (runCalls (newSshfsDriver "/mnt")
        (mountCalls "h" [envOk] ++ unmountCalls "h" [envOk, envOk])).volumes.get "/mnt/h" =
        some ⟨"h", -1⟩ := by
  decide

/-- C4 fails as stated: on a new driver, `Mount("h")` followed by `Remove("h")`
leaves the file system mounted at the mountpoint while the registry holds no
entry for it. -/
theorem C4_counterexample :
    (World.run (World.init "/mnt")
        [⟨.Mount, ⟨"h"⟩, envOk⟩, ⟨.Remove, ⟨"h"⟩, envOk⟩]).mounted "/mnt/h" = true ∧
      (World.run (World.init "/mnt")
        [⟨.Mount, ⟨"h"⟩, envOk⟩, ⟨.Remove, ⟨"h"⟩, envOk⟩]).d.volumes.get "/mnt/h" = none := by
  decide

/-- C4 as amended: in every state reached from the empty registry by any calls
with any outcomes, every mountpoint whose entry has `connections >= 1` is
mounted; and when no `Remove` was applied to an entry with exactly one
connection, a mountpoint is mounted if and only if the registry holds an entry
for it with `connections >= 1`. -/
theorem C4_mounted_iff_counted (root : String) (cs : List Call) :
    (∀ m s, (World.run (World.init root) cs).d.volumes.get m = some s →
        1 ≤ s.connections → (World.run (World.init root) cs).mounted m = true) ∧
      (noLiveRemove (newSshfsDriver root) cs = true →
        ∀ m, (World.run (World.init root) cs).mounted m = true ↔
          ∃ s, (World.run (World.init root) cs).d.volumes.get m = some s ∧
            1 ≤ s.connections) := by
  have h1 : (World.run (World.init root) cs).countedMounted :=
    World.countedMounted_run cs _ (by intro m s hs; simp [World.init, newSshfsDriver, Registry.get] at hs)
  refine ⟨h1, fun hl m => ⟨fun hm => ?_, fun ⟨s, hs, hc⟩ => h1 m s hs hc⟩⟩
  exact World.mountedCounted_run cs _ hl (by intro m hm; simp [World.init] at hm) m hm

/-- C4 as amended, at a concrete input: after two mounts and one unmount of `h`
the mountpoint is mounted and its entry has one connection. -/
theorem C4_mounted_iff_counted_witness :
    (World.run (World.init "/mnt")
        (mountCalls "h" [envOk, envOk] ++ unmountCalls "h" [envOk])).mounted "/mnt/h" = true ↔
      ∃ s, (World.run (World.init "/mnt")
        (mountCalls "h" [envOk, envOk] ++ unmountCalls "h" [envOk])).d.volumes.get "/mnt/h" =
          some s ∧ 1 ≤ s.connections :=
  (C4_mounted_iff_counted "/mnt" (mountCalls "h" [envOk, envOk] ++ unmountCalls "h" [envOk])).2
    (by decide) "/mnt/h"

/-- C5: `Unmount(name)` runs the external unmount exactly when the entry at the
mountpoint exists with one connection; for an entry with more than one
connection it makes no call to the operating system, returns the empty
response, lowers that entry's connections by one and leaves every other entry
as it was. -/
theorem C5_unmount_external_call (d : sshfsDriver) (env : Env) (r : Request) :
    ((∃ e ∈ (d.Unmount env r).events, e.isUmount = true) ↔
        ∃ s, d.volumes.get (d.mountpoint r.Name) = some s ∧ s.connections = 1) ∧
      (∀ s, d.volumes.get (d.mountpoint r.Name) = some s → 1 < s.connections →
        (d.Unmount env r).events = [] ∧
          (d.Unmount env r).resp = Response.zero ∧
          (d.Unmount env r).d.volumes.get (d.mountpoint r.Name) =
            some ⟨s.name, s.connections - 1⟩ ∧
          ∀ k, k ≠ d.mountpoint r.Name →
            (d.Unmount env r).d.volumes.get k = d.volumes.get k) := by
  obtain ⟨root, vs⟩ := d
  simp only [sshfsDriver.mountpoint]
  constructor
  · cases hg : vs.get (filepath.Join root r.Name) with
    | none => simp [sshfsDriver.Unmount, sshfsDriver.mountpoint, hg]
    | some s =>
      by_cases hc : s.connections = 1
      · cases hu : env.umount (umountCmd (filepath.Join root r.Name)) <;>
          simp [sshfsDriver.Unmount, sshfsDriver.mountpoint, hg, hc, unmountVolume, hu,
            Event.isUmount]
      · simp [sshfsDriver.Unmount, sshfsDriver.mountpoint, hg, hc]
  · intro s hg hc
    have hne : s.connections ≠ 1 := by omega
    simp only [sshfsDriver.Unmount, sshfsDriver.mountpoint, hg, hne, if_false]
    refine ⟨trivial, trivial, Registry.get_set_self _ _ _, ?_⟩
    intro k hk
    exact Registry.get_set_other _ _ _ _ hk

/-- C5 at a concrete input: an entry with two connections. -/
theorem C5_unmount_external_call_witness :
    (sshfsDriver.Unmount ⟨"/mnt", [("/mnt/h", ⟨"h", 2⟩)]⟩ envBusy ⟨"h"⟩).events = [] ∧
      (sshfsDriver.Unmount ⟨"/mnt", [("/mnt/h", ⟨"h", 2⟩)]⟩ envBusy ⟨"h"⟩).resp =
        Response.zero ∧
      (sshfsDriver.Unmount ⟨"/mnt", [("/mnt/h", ⟨"h", 2⟩)]⟩ envBusy ⟨"h"⟩).d.volumes.get
        "/mnt/h" = some ⟨"h", 1⟩ :=
  have h := (C5_unmount_external_call ⟨"/mnt", [("/mnt/h", ⟨"h", 2⟩)]⟩ envBusy ⟨"h"⟩).2
    ⟨"h", 2⟩ (by decide) (by decide)
  ⟨h.1, h.2.1, h.2.2.1⟩

/-- C6: for an entry with one connection, when the external unmount fails,
`Unmount` returns that error and the driver is unchanged; a further
`Unmount(name)` runs the external unmount again, whatever its outcome, and
when it succeeds returns the empty response and leaves no connection. -/
theorem C6_unmount_failure_keeps_entry (d : sshfsDriver) (env : Env) (r : Request)
    (s : volume_name) (err : String)
    (hg : d.volumes.get (d.mountpoint r.Name) = some s)
    (hc : s.connections = 1)
    (herr : env.umount (umountCmd (d.mountpoint r.Name)) = some err) :
    (d.Unmount env r).resp = Response.ofErr err ∧
      (d.Unmount env r).d = d ∧
      (∀ env2, ∃ ok, ((d.Unmount env r).d.Unmount env2 r).events =
        [Event.umount (umountCmd (d.mountpoint r.Name)) (d.mountpoint r.Name) ok]) ∧
      (∀ env2, env2.umount (umountCmd (d.mountpoint r.Name)) = none →
        ((d.Unmount env r).d.Unmount env2 r).resp = Response.zero ∧
          ((d.Unmount env r).d.Unmount env2 r).events =
            [Event.umount (umountCmd (d.mountpoint r.Name)) (d.mountpoint r.Name) true] ∧
          ((d.Unmount env r).d.Unmount env2 r).d.volumes.get (d.mountpoint r.Name) =
            some ⟨s.name, 0⟩) := by
  obtain ⟨root, vs⟩ := d
  simp only [sshfsDriver.mountpoint] at hg herr ⊢
  have h1 : sshfsDriver.Unmount ⟨root, vs⟩ env r = ⟨⟨root, vs⟩, Response.ofErr err,
      [Event.umount (umountCmd (filepath.Join root r.Name)) (filepath.Join root r.Name)
        false]⟩ := by
    simp [sshfsDriver.Unmount, sshfsDriver.mountpoint, hg, hc, unmountVolume, herr]
  rw [h1]
  refine ⟨rfl, rfl, ?_, ?_⟩
  · intro env2
    cases hu : env2.umount (umountCmd (filepath.Join root r.Name)) <;>
      simp [sshfsDriver.Unmount, sshfsDriver.mountpoint, hg, hc, unmountVolume, hu]
  · intro env2 hu
    simp [sshfsDriver.Unmount, sshfsDriver.mountpoint, hg, hc, unmountVolume, hu,
      Registry.get_set_self]

/-- C6 at a concrete input: the unmount command fails once. -/
theorem C6_unmount_failure_keeps_entry_witness :
    (sshfsDriver.Unmount ⟨"/mnt", [("/mnt/h", ⟨"h", 1⟩)]⟩ envBusy ⟨"h"⟩).resp =
        Response.ofErr "exit status 32" ∧
      (sshfsDriver.Unmount ⟨"/mnt", [("/mnt/h", ⟨"h", 1⟩)]⟩ envBusy ⟨"h"⟩).d =
        ⟨"/mnt", [("/mnt/h", ⟨"h", 1⟩)]⟩ :=
  have h := C6_unmount_failure_keeps_entry ⟨"/mnt", [("/mnt/h", ⟨"h", 1⟩)]⟩ envBusy ⟨"h"⟩
    ⟨"h", 1⟩ "exit status 32" (by decide) (by decide) (by decide)
  ⟨h.1, h.2.1⟩

/-- C7: when the registry has no entry at the mountpoint of the name, `Unmount`
fails with the text "Unable to find volume mounted on" followed by the
mountpoint, calls nothing, and leaves the driver unchanged. -/
theorem C7_unmount_unknown (d : sshfsDriver) (env : Env) (r : Request)
    (hg : d.volumes.get (d.mountpoint r.Name) = none) :
    d.Unmount env r =
      ⟨d, Response.ofErr ("Unable to find volume mounted on " ++ d.mountpoint r.Name), []⟩ := by
  simp [sshfsDriver.Unmount, hg, notMounted]

/-- C7 at a concrete input: `Unmount("h")` on a new driver. -/
theorem C7_unmount_unknown_witness :
    (newSshfsDriver "/mnt").Unmount envOk ⟨"h"⟩ =
      ⟨newSshfsDriver "/mnt",
        Response.ofErr ("Unable to find volume mounted on " ++
          (newSshfsDriver "/mnt").mountpoint "h"), []⟩ :=
  C7_unmount_unknown (newSshfsDriver "/mnt") envOk ⟨"h"⟩ (by decide)

/-- C8: whenever the response of `Mount` carries an error, the driver after the
call is the driver before it; more precisely, the driver changes only in a
call that returns the mountpoint without error. -/
theorem C8_mount_error_keeps_registry (d : sshfsDriver) (env : Env) (r : Request) :
    ((d.Mount env r).resp.Err ≠ "" → (d.Mount env r).d = d) ∧
      ((d.Mount env r).d = d ∨
        (d.Mount env r).resp = Response.ofMountpoint (d.mountpoint r.Name)) := by
  have hrec : ∀ evs, (mountAndRecord env d r (d.mountpoint r.Name) evs).d = d ∨
      (mountAndRecord env d r (d.mountpoint r.Name) evs).resp =
        Response.ofMountpoint (d.mountpoint r.Name) := by
    intro evs
    unfold mountAndRecord
    split
    · exact Or.inl rfl
    · exact Or.inr rfl
  have hfresh : (mountFresh env d r (d.mountpoint r.Name)).d = d ∨
      (mountFresh env d r (d.mountpoint r.Name)).resp =
        Response.ofMountpoint (d.mountpoint r.Name) := by
    unfold mountFresh
    split
    · split
      · exact Or.inl rfl
      · exact hrec _
    · exact Or.inl rfl
    · split
      · exact Or.inl rfl
      · exact hrec _
  have hall : (d.Mount env r).d = d ∨
      (d.Mount env r).resp = Response.ofMountpoint (d.mountpoint r.Name) := by
    simp only [sshfsDriver.Mount]
    split
    · split
      · exact Or.inr rfl
      · exact hfresh
    · exact hfresh
  refine ⟨fun herr => ?_, hall⟩
  rcases hall with h | h
  · exact h
  · rw [h] at herr
    exact absurd rfl herr

/-- C8 at a concrete input: the mount process exits with an error. -/
theorem C8_mount_error_keeps_registry_witness :
    ((newSshfsDriver "/mnt").Mount envRefused ⟨"h"⟩).d = newSshfsDriver "/mnt" :=
  (C8_mount_error_keeps_registry (newSshfsDriver "/mnt") envRefused ⟨"h"⟩).1 (by decide)

/-- C9 fails as stated: on a new driver, when the mountpoint of `bad#name#x`
does not exist, `Mount` creates it with `os.MkdirAll` and only then fails with
the invalid-name error. -/
theorem C9_counterexample :
    2 ≤ "bad#name#x".data.count '#' ∧
      (newSshfsDriver "/mnt").volumes.get ((newSshfsDriver "/mnt").mountpoint "bad#name#x") =
        none ∧
      envMissing.lstat ((newSshfsDriver "/mnt").mountpoint "bad#name#x") = .notExist ∧
      (newSshfsDriver "/mnt").Mount envMissing ⟨"bad#name#x"⟩ =
        ⟨newSshfsDriver "/mnt", Response.ofErr "invalid name, use [user@]host#[dir]",
          [Event.lstat "/mnt/bad#name#x", Event.mkdirAll "/mnt/bad#name#x" true]⟩ ∧
      (∃ e ∈ ((newSshfsDriver "/mnt").Mount envMissing ⟨"bad#name#x"⟩).events,
        e.isMkdirOk = true) := by
  decide

/-- C9 as amended: for a name with more than one `#` whose mountpoint is not
counted as mounted, `Mount` starts no process and leaves the driver unchanged;
when the mountpoint is a directory it fails with the invalid-name error after
the `Lstat` alone; when the mountpoint does not exist it calls `MkdirAll`
first, and fails with the invalid-name error once the directory is created. -/
theorem C9_invalid_name_mount (d : sshfsDriver) (env : Env) (r : Request)
    (hname : 2 ≤ r.Name.data.count '#')
    (hnot : ∀ s, d.volumes.get (d.mountpoint r.Name) = some s → s.connections ≤ 0) :
    (d.Mount env r).d = d ∧
      (∀ e ∈ (d.Mount env r).events, e.isProcess = false) ∧
      (env.lstat (d.mountpoint r.Name) = .info true →
        d.Mount env r = ⟨d, Response.ofErr invalidName, [Event.lstat (d.mountpoint r.Name)]⟩) ∧
      (env.lstat (d.mountpoint r.Name) = .notExist →
        env.mkdirAll (d.mountpoint r.Name) = none →
        d.Mount env r = ⟨d, Response.ofErr invalidName,
          [Event.lstat (d.mountpoint r.Name), Event.mkdirAll (d.mountpoint r.Name) true]⟩) := by
  obtain ⟨root, vs⟩ := d
  simp only [sshfsDriver.mountpoint] at hnot ⊢
  rw [Mount_uncounted root vs env r hnot]
  have hmv := mountVolume_invalid env r.Name (filepath.Join root r.Name) hname
  refine ⟨?_, ?_, ?_, ?_⟩
  · unfold mountFresh
    cases env.lstat (filepath.Join root r.Name) with
    | notExist =>
      cases env.mkdirAll (filepath.Join root r.Name) <;> simp [mountAndRecord, hmv]
    | error err => rfl
    | info isDir => cases isDir <;> simp [mountAndRecord, hmv]
  · unfold mountFresh
    cases env.lstat (filepath.Join root r.Name) with
    | notExist =>
      cases env.mkdirAll (filepath.Join root r.Name) <;>
        simp [mountAndRecord, hmv, Event.isProcess, Event.isSshfs, Event.isUmount]
    | error err => simp [Event.isProcess, Event.isSshfs, Event.isUmount]
    | info isDir =>
      cases isDir <;> simp [mountAndRecord, hmv, Event.isProcess, Event.isSshfs, Event.isUmount]
  · intro hl
    simp [mountFresh, hl, mountAndRecord, hmv]
  · intro hl hk
    simp [mountFresh, hl, hk, mountAndRecord, hmv]

/-- C9 as amended, at a concrete input: the mountpoint of `bad#name#x` is
already a directory. -/
theorem C9_invalid_name_mount_witness :
    (newSshfsDriver "/mnt").Mount envOk ⟨"bad#name#x"⟩ =
      ⟨newSshfsDriver "/mnt", Response.ofErr invalidName,
        [Event.lstat ((newSshfsDriver "/mnt").mountpoint "bad#name#x")]⟩ :=
  (C9_invalid_name_mount (newSshfsDriver "/mnt") envOk ⟨"bad#name#x"⟩ (by decide)
    (by decide)).2.2.1 (by decide)

/-- C10: the source computed at the start of `mountVolume` is `name:/` for a
name without `#`, `p:q` for a name `p#q` with no `#` in `p` and `q`, and for a
name with two or more `#` there is no source: `mountVolume` returns the
invalid-name error and starts no process.  In particular `host` gives
`host:/`, `user@host#path` gives `user@host:path`, and `a#b#c` is refused. -/
theorem C10_name_to_source :
    (∀ name : String, '#' ∉ name.data → mountSource name = .ok (name ++ ":/")) ∧
      (∀ p q : String, '#' ∉ p.data → '#' ∉ q.data →
        mountSource (p ++ "#" ++ q) = .ok (p ++ ":" ++ q)) ∧
      (∀ name : String, 2 ≤ name.data.count '#' →
        mountSource name = .error invalidName ∧
          ∀ env destination, mountVolume env name destination = (some invalidName, [])) ∧
      mountSource "host" = .ok "host:/" ∧
      mountSource "user@host#path" = .ok "user@host:path" ∧
      mountSource "a#b#c" = .error "invalid name, use [user@]host#[dir]" := by
  refine ⟨?_, ?_, ?_, by decide, by decide, by decide⟩
  · intro name h
    simp [mountSource, splitOn_of_not_mem '#' name.data h]
  · intro p q hp hq
    have hd : (p ++ "#" ++ q).data = p.data ++ '#' :: q.data := by
      simp [String.data_append]
    simp [mountSource, hd, splitOn_append_sep '#' p.data q.data hp,
      splitOn_of_not_mem '#' q.data hq]
  · intro name h
    exact ⟨mountSource_invalid name h, fun env dest => mountVolume_invalid env name dest h⟩

/-- C10 at a concrete input: the name `alice@db1#data`. -/
theorem C10_name_to_source_witness :
    mountSource ("alice@db1" ++ "#" ++ "data") = .ok ("alice@db1" ++ ":" ++ "data") :=
  C10_name_to_source.2.1 "alice@db1" "data" (by decide) (by decide)

/-! ## Lemmas for the queries and for the keys of the registry -/

theorem run_root (cs : List Call) : ∀ d : sshfsDriver, (runCalls d cs).root = d.root := by
  induction cs with
  | nil => intro d; rfl
  | cons c cs ih =>
    intro d
    simp only [runCalls]
    rw [ih, call_root]

theorem Mount_resp_cases (d : sshfsDriver) (env : Env) (r : Request) :
    (d.Mount env r).resp = Response.ofMountpoint (d.mountpoint r.Name) ∨
      ((d.Mount env r).d = d ∧ ∃ err, (d.Mount env r).resp = Response.ofErr err) := by
  have hrec : ∀ evs, (mountAndRecord env d r (d.mountpoint r.Name) evs).resp =
        Response.ofMountpoint (d.mountpoint r.Name) ∨
      ((mountAndRecord env d r (d.mountpoint r.Name) evs).d = d ∧
        ∃ err, (mountAndRecord env d r (d.mountpoint r.Name) evs).resp = Response.ofErr err) := by
    intro evs
    unfold mountAndRecord
    split
    · exact Or.inr ⟨rfl, _, rfl⟩
    · exact Or.inl rfl
  have hfresh : (mountFresh env d r (d.mountpoint r.Name)).resp =
        Response.ofMountpoint (d.mountpoint r.Name) ∨
      ((mountFresh env d r (d.mountpoint r.Name)).d = d ∧
        ∃ err, (mountFresh env d r (d.mountpoint r.Name)).resp = Response.ofErr err) := by
    unfold mountFresh
    split
    · split
      · exact Or.inr ⟨rfl, _, rfl⟩
      · exact hrec _
    · exact Or.inr ⟨rfl, _, rfl⟩
    · split
      · exact Or.inr ⟨rfl, _, rfl⟩
      · exact hrec _
  simp only [sshfsDriver.Mount]
  split
  · split
    · exact Or.inl rfl
    · exact hfresh
  · exact hfresh

theorem Registry.mem_of_get {vs : Registry} {k : String} {s : volume_name}
    (h : vs.get k = some s) : (k, s) ∈ vs := by
  induction vs with
  | nil => simp [Registry.get] at h
  | cons kv t ih =>
    obtain ⟨k0, w⟩ := kv
    by_cases h0 : k0 = k
    · subst h0
      simp only [Registry.get, if_true, Option.some.injEq] at h
      subst h
      exact List.mem_cons_self _ _
    · simp only [Registry.get, h0, if_false] at h
      exact List.mem_cons_of_mem _ (ih h)

theorem Registry.mem_set {vs : Registry} {m : String} {v : volume_name}
    {kv : String × volume_name} (h : kv ∈ vs.set m v) : kv ∈ vs ∨ kv = (m, v) := by
  induction vs with
  | nil =>
    simp only [Registry.set, List.mem_singleton] at h
    exact Or.inr h
  | cons kw t ih =>
    obtain ⟨k0, w⟩ := kw
    by_cases h0 : k0 = m
    · subst h0
      simp only [Registry.set, if_true, List.mem_cons] at h
      rcases h with h | h
      · exact Or.inr h
      · exact Or.inl (List.mem_cons_of_mem _ h)
    · simp only [Registry.set, h0, if_false, List.mem_cons] at h
      rcases h with h | h
      · exact Or.inl (h ▸ List.mem_cons_self _ _)
      · rcases ih h with h1 | h1
        · exact Or.inl (List.mem_cons_of_mem _ h1)
        · exact Or.inr h1

theorem Registry.mem_delete {vs : Registry} {m : String} {kv : String × volume_name}
    (h : kv ∈ vs.delete m) : kv ∈ vs := by
  induction vs with
  | nil => simp [Registry.delete] at h
  | cons kw t ih =>
    obtain ⟨k0, w⟩ := kw
    by_cases h0 : k0 = m
    · simp only [Registry.delete, h0, if_true] at h
      exact List.mem_cons_of_mem _ (ih h)
    · simp only [Registry.delete, h0, if_false, List.mem_cons] at h
      rcases h with h | h
      · exact h ▸ List.mem_cons_self _ _
      · exact List.mem_cons_of_mem _ (ih h)

theorem keysMatch_call (d : sshfsDriver) (c : Call) (h : keysMatch d) :
    keysMatch (d.call c).d := by
  have hc := World.call_cases ⟨d, fun _ => false⟩ c
  simp only [World.call] at hc
  intro kv hkv
  rcases hc with ⟨hd, -⟩ | ⟨s0, -, hg, -, hd, -⟩ | ⟨-, -, hd, -⟩ |
    ⟨s0, -, hg, -, hd, -⟩ | ⟨s0, -, hg, -, hd, -⟩ | ⟨s0, -, hg, -, hd, -⟩
  · rw [hd] at hkv ⊢
    exact h kv hkv
  · rw [hd] at hkv ⊢
    rcases Registry.mem_set hkv with h1 | h1
    · exact h kv h1
    · subst h1
      exact h (_, s0) (Registry.mem_of_get hg)
  · rw [hd] at hkv ⊢
    rcases Registry.mem_set hkv with h1 | h1
    · exact h kv h1
    · subst h1
      rfl
  · rw [hd] at hkv ⊢
    rcases Registry.mem_set hkv with h1 | h1
    · exact h kv h1
    · subst h1
      exact h (_, s0) (Registry.mem_of_get hg)
  · rw [hd] at hkv ⊢
    rcases Registry.mem_set hkv with h1 | h1
    · exact h kv h1
    · subst h1
      exact h (_, s0) (Registry.mem_of_get hg)
  · rw [hd] at hkv ⊢
    exact h kv (Registry.mem_delete hkv)

theorem keysMatch_run (cs : List Call) :
    ∀ d : sshfsDriver, keysMatch d → keysMatch (runCalls d cs) := by
  induction cs with
  | nil => intro d h; exact h
  | cons c cs ih => intro d h; exact ih _ (keysMatch_call d c h)

theorem no_mount_keeps_empty (cs : List Call) (h : ∀ c ∈ cs, c.op ≠ .Mount) :
    ∀ root : String, runCalls (newSshfsDriver root) cs = newSshfsDriver root := by
  induction cs with
  | nil => intro root; rfl
  | cons c cs ih =>
    intro root
    have hop := h c (List.mem_cons_self _ _)
    have hstep : ((newSshfsDriver root).call c).d = newSshfsDriver root := by
      obtain ⟨op, r, env⟩ := c
      cases op <;> first | rfl | exact absurd rfl hop
    simp only [runCalls, hstep]
    exact ih (fun c1 hc1 => h c1 (List.mem_cons_of_mem _ hc1)) root

/-! ## Cleaning a path that ends in a plain name -/

theorem splitOn_ne_nil (sep : Char) (l : List Char) : splitOn sep l ≠ [] := by
  intro h
  have := splitOn_length sep l
  rw [h] at this
  simp at this

theorem splitOn_append (sep : Char) (p q : List Char) :
    splitOn sep (p ++ sep :: q) = splitOn sep p ++ splitOn sep q := by
  induction p with
  | nil => simp [splitOn]
  | cons c cs ih =>
    by_cases h : c = sep
    · simp [splitOn, h, ih]
    · cases hs : splitOn sep cs with
      | nil => exact absurd hs (splitOn_ne_nil sep cs)
      | cons a t =>
        rw [hs] at ih
        simp [splitOn, h, ih, hs]

theorem intercalate_cons_cons (sep a b : List Char) (t : List (List Char)) :
    List.intercalate sep (a :: b :: t) = a ++ sep ++ List.intercalate sep (b :: t) := by
  simp [List.intercalate]

theorem intercalate_splitOn (sep : Char) (l : List Char) :
    List.intercalate [sep] (splitOn sep l) = l := by
  induction l with
  | nil => simp [splitOn, List.intercalate]
  | cons c cs ih =>
    cases hs : splitOn sep cs with
    | nil => exact absurd hs (splitOn_ne_nil sep cs)
    | cons a t =>
      rw [hs] at ih
      by_cases h : c = sep
      · subst h
        simp only [splitOn, if_true, hs]
        rw [intercalate_cons_cons, ih]
        rfl
      · simp only [splitOn, h, if_false, hs]
        cases t with
        | nil =>
          simp only [List.intercalate, List.intersperse_single, List.flatten_cons,
            List.flatten_nil, List.append_nil] at ih ⊢
          rw [ih]
        | cons b t =>
          rw [intercalate_cons_cons] at ih ⊢
          rw [← ih]
          simp

theorem intercalate_append (sep : List Char) (xs ys : List (List Char)) (hy : ys ≠ []) :
    List.intercalate sep (xs ++ ys) =
      (if xs = [] then [] else List.intercalate sep xs ++ sep) ++ List.intercalate sep ys := by
  induction xs with
  | nil => simp
  | cons a t ih =>
    cases t with
    | nil =>
      cases ys with
      | nil => exact absurd rfl hy
      | cons b u =>
        simp only [List.singleton_append, intercalate_cons_cons]
        simp [List.intercalate]
    | cons b u =>
      simp only [List.cons_append] at ih ⊢
      rw [intercalate_cons_cons, ih, intercalate_cons_cons]
      simp

theorem cleanStep_real (rooted : Bool) (stack : List (List Char)) (el : List Char)
    (h : realElement el = true) : cleanStep rooted stack el = el :: stack := by
  simp only [realElement, Bool.not_eq_true', Bool.or_eq_false_iff, decide_eq_false_iff_not] at h
  simp [cleanStep, h.1.1, h.1.2, h.2]

theorem foldl_cleanStep_real (rooted : Bool) (els : List (List Char))
    (h : ∀ el ∈ els, realElement el = true) :
    ∀ stack, els.foldl (cleanStep rooted) stack = els.reverse ++ stack := by
  induction els with
  | nil => intro stack; rfl
  | cons el els ih =>
    intro stack
    simp only [List.foldl_cons, List.reverse_cons, List.append_assoc, List.singleton_append]
    rw [cleanStep_real rooted stack el (h el (List.mem_cons_self _ _))]
    exact ih (fun e he => h e (List.mem_cons_of_mem _ he)) _

/-- Cleaning a non-empty root joined to a plain name gives a text that depends
on the root alone, followed by the name. -/
theorem cleanChars_join (r : List Char) (hr : r ≠ []) :
    ∃ pre : List Char, ∀ l : List Char,
      (∀ el ∈ splitOn '/' l, realElement el = true) →
      cleanChars (r ++ '/' :: l) = pre ++ l := by
  refine ⟨(if r.head? = some '/' then ['/'] else []) ++
    (if ((splitOn '/' r).foldl (cleanStep (decide (r.head? = some '/'))) []).reverse = []
      then []
      else List.intercalate ['/']
        ((splitOn '/' r).foldl (cleanStep (decide (r.head? = some '/'))) []).reverse ++ ['/']),
    ?_⟩
  intro l hl
  have hhead : (r ++ '/' :: l).head? = r.head? := by
    cases r with
    | nil => exact absurd rfl hr
    | cons c cs => rfl
  unfold cleanChars
  simp only [hhead, splitOn_append, List.foldl_append]
  rw [foldl_cleanStep_real _ _ hl]
  simp only [List.reverse_append, List.reverse_reverse]
  rw [intercalate_append _ _ _ (splitOn_ne_nil '/' l), intercalate_splitOn]
  by_cases hrt : r.head? = some '/'
  · simp [hrt]
  · simp [hrt, splitOn_ne_nil]

/-- Cleaning a plain name gives the name. -/
theorem cleanChars_plain (l : List Char)
    (hl : ∀ el ∈ splitOn '/' l, realElement el = true) : cleanChars l = l := by
  have hhead : l.head? ≠ some '/' := by
    intro h
    cases l with
    | nil => simp at h
    | cons c cs =>
      simp only [List.head?_cons, Option.some.injEq] at h
      subst h
      have := hl [] (by simp [splitOn])
      simp [realElement] at this
  simp only [cleanChars]
  rw [foldl_cleanStep_real _ _ hl]
  simp [hhead, splitOn_ne_nil, intercalate_splitOn]

/-- C11 fails as stated: the mount process writes a text to its error stream
and exits with an error; the error that `mountVolume` returns, and the `Err`
of the `Mount` response, is `exit status 1`, which does not contain that
text. -/
theorem C11_counterexample :
    envRefused.sshfs (sshfsCmd "h:/" "/mnt/h") =
        .waitFailed "exit status 1" "read: Connection reset by peer" ∧
      mountVolume envRefused "h" "/mnt/h" =
        (some "exit status 1", [Event.sshfs "sshfs h:/  /mnt/h" "/mnt/h" false]) ∧
      ((newSshfsDriver "/mnt").Mount envRefused ⟨"h"⟩).resp = Response.ofErr "exit status 1" ∧
      ¬ containsText "exit status 1" "read: Connection reset by peer" := by
  decide

/-- C11 as amended: when the mount process exits with an error `err` after
writing any text `t` to its error stream, `mountVolume` returns `err` itself,
whatever `t` is, and so does the `Err` of the response of a `Mount` that
reaches the external mount. -/
theorem C11_mount_error_is_wait_error (d : sshfsDriver) (env : Env) (r : Request)
    (source err t : String)
    (hs : mountSource r.Name = .ok source)
    (hx : env.sshfs (sshfsCmd source (d.mountpoint r.Name)) = .waitFailed err t) :
    mountVolume env r.Name (d.mountpoint r.Name) =
        (some err, [Event.sshfs (sshfsCmd source (d.mountpoint r.Name))
          (d.mountpoint r.Name) false]) ∧
      ((∀ s, d.volumes.get (d.mountpoint r.Name) = some s → s.connections ≤ 0) →
        (env.lstat (d.mountpoint r.Name) = .info true ∨
          (env.lstat (d.mountpoint r.Name) = .notExist ∧
            env.mkdirAll (d.mountpoint r.Name) = none)) →
        (d.Mount env r).resp = Response.ofErr err ∧ (d.Mount env r).d = d) := by
  have hmv : mountVolume env r.Name (d.mountpoint r.Name) =
      (some err, [Event.sshfs (sshfsCmd source (d.mountpoint r.Name))
        (d.mountpoint r.Name) false]) := by
    simp [mountVolume, hs, hx]
  refine ⟨hmv, fun hnot hdir => ?_⟩
  obtain ⟨root, vs⟩ := d
  simp only [sshfsDriver.mountpoint] at hnot hdir hmv ⊢
  rw [Mount_uncounted root vs env r hnot]
  rcases hdir with hd | ⟨hd, hk⟩
  · simp [mountFresh, hd, mountAndRecord, hmv]
  · simp [mountFresh, hd, hk, mountAndRecord, hmv]

/-- C11 as amended, at a concrete input: the refused mount of `h`. -/
theorem C11_mount_error_is_wait_error_witness :
    mountVolume envRefused "h" ((newSshfsDriver "/mnt").mountpoint "h") =
      (some "exit status 1",
        [Event.sshfs (sshfsCmd "h:/" ((newSshfsDriver "/mnt").mountpoint "h"))
          ((newSshfsDriver "/mnt").mountpoint "h") false]) :=
  (C11_mount_error_is_wait_error (newSshfsDriver "/mnt") envRefused ⟨"h"⟩ "h:/"
    "exit status 1" "read: Connection reset by peer" (by decide) (by decide)).1

/-- C12 fails as stated: the distinct names `h`, `h/` and `a/../h` have the
same mountpoint. -/
theorem C12_counterexample :
    "h" ≠ "h/" ∧ "h" ≠ "a/../h" ∧
      (newSshfsDriver "/mnt").mountpoint "h" = (newSshfsDriver "/mnt").mountpoint "h/" ∧
      (newSshfsDriver "/mnt").mountpoint "h" = (newSshfsDriver "/mnt").mountpoint "a/../h" := by
  decide

/-- C12 as amended: for every root, two distinct names that are relative paths
in clean form (every element between slashes is non-empty and is neither `.`
nor `..`) have distinct mountpoints. -/
theorem C12_mountpoint_injective (d : sshfsDriver) (n1 n2 : String)
    (h1 : plainName n1 = true) (h2 : plainName n2 = true) (hne : n1 ≠ n2) :
    d.mountpoint n1 ≠ d.mountpoint n2 := by
  simp only [plainName, List.all_eq_true] at h1 h2
  have hdata : n1.data ≠ n2.data := fun h => hne (String.ext h)
  have hnonempty : ∀ n : String, (∀ el ∈ splitOn '/' n.data, realElement el = true) →
      n ≠ "" := by
    intro n hn h
    subst h
    have := hn [] (by simp [splitOn])
    simp [realElement] at this
  intro heq
  simp only [sshfsDriver.mountpoint, filepath.Join] at heq
  by_cases hroot : d.root = ""
  · simp only [hroot, ne_eq, not_true_eq_false, if_false, hnonempty n1 h1, hnonempty n2 h2,
      not_false_eq_true, if_true, filepath.Clean] at heq
    have heq1 := congrArg String.data heq
    simp only [cleanChars_plain _ h1, cleanChars_plain _ h2] at heq1
    exact hdata heq1
  · have hr : d.root.data ≠ [] := fun h => hroot (String.ext h)
    obtain ⟨pre, hpre⟩ := cleanChars_join d.root.data hr
    simp only [ne_eq, hroot, not_false_eq_true, if_true, filepath.Clean] at heq
    have heq1 := congrArg String.data heq
    have e1 : (d.root ++ "/" ++ n1).data = d.root.data ++ '/' :: n1.data := by
      simp [String.data_append]
    have e2 : (d.root ++ "/" ++ n2).data = d.root.data ++ '/' :: n2.data := by
      simp [String.data_append]
    simp only [e1, e2, hpre _ h1, hpre _ h2] at heq1
    exact hdata (List.append_cancel_left heq1)

/-- C12 as amended, at a concrete input: the names `h` and `db1/data`. -/
theorem C12_mountpoint_injective_witness :
    (newSshfsDriver "/mnt").mountpoint "h" ≠ (newSshfsDriver "/mnt").mountpoint "db1/data" :=
  C12_mountpoint_injective (newSshfsDriver "/mnt") "h" "db1/data" (by decide) (by decide)
    (by decide)

/-- C13: `Path(name)` is the mountpoint of the name with no error, no call to
the operating system and the driver unchanged; its response is the same for
every registry and after any calls; and `Mount(name)`, in any state reached
by such calls, either returns exactly that mountpoint or returns an error and
leaves the driver as it was. -/
theorem C13_path_is_mountpoint (d : sshfsDriver) (r : Request) :
    d.Path r = ⟨d, Response.ofMountpoint (d.mountpoint r.Name), []⟩ ∧
      (d.Path r).resp.Err = "" ∧
      (∀ vs : Registry, (sshfsDriver.Path ⟨d.root, vs⟩ r).resp = (d.Path r).resp) ∧
      (∀ cs : List Call, ((runCalls d cs).Path r).resp = (d.Path r).resp) ∧
      (∀ (cs : List Call) (env : Env),
        ((runCalls d cs).Mount env r).resp =
            Response.ofMountpoint (d.Path r).resp.Mountpoint ∨
          (((runCalls d cs).Mount env r).d = runCalls d cs ∧
            ∃ err, ((runCalls d cs).Mount env r).resp = Response.ofErr err)) := by
  refine ⟨rfl, rfl, fun vs => rfl, fun cs => ?_, fun cs env => ?_⟩
  · simp only [sshfsDriver.Path, sshfsDriver.mountpoint, run_root]
  · have h := Mount_resp_cases (runCalls d cs) env r
    simp only [sshfsDriver.mountpoint, run_root] at h
    exact h

/-- C14 fails as stated: after `Mount("h")` and the final `Unmount("h")`, with
the external unmount successful, the entry has no connection left and
`Get("h")` still returns the volume, not the not-found error. -/
theorem C14_counterexample :
    (runCalls (newSshfsDriver "/mnt")
        (mountCalls "h" [envOk] ++ unmountCalls "h" [envOk])).volumes.get "/mnt/h" =
        some ⟨"h", 0⟩ ∧
      ((runCalls (newSshfsDriver "/mnt")
        (mountCalls "h" [envOk] ++ unmountCalls "h" [envOk])).Get ⟨"h"⟩).resp =
        ⟨"", "", [], some ⟨"h", "/mnt/h"⟩, ""⟩ := by
  decide

/-- C14 as amended: `Get(name)` never changes the driver and calls nothing; it
returns the not-found error exactly when the registry has no entry at the
mountpoint of the name, and for every entry there, whatever its number of
connections, it returns the volume made of the entry's name and the
mountpoint of that name. -/
theorem C14_get_by_entry (d : sshfsDriver) (r : Request) :
    (d.Get r).d = d ∧ (d.Get r).events = [] ∧
      (d.volumes.get (d.mountpoint r.Name) = none →
        (d.Get r).resp =
          Response.ofErr ("Unable to find volume mounted on " ++ d.mountpoint r.Name)) ∧
      (∀ s, d.volumes.get (d.mountpoint r.Name) = some s →
        (d.Get r).resp = ⟨"", "", [], some ⟨s.name, d.mountpoint s.name⟩, ""⟩) := by
  refine ⟨?_, ?_, ?_, ?_⟩
  · simp only [sshfsDriver.Get]
    split <;> rfl
  · simp only [sshfsDriver.Get]
    split <;> rfl
  · intro h
    simp [sshfsDriver.Get, h, notMounted]
  · intro s h
    simp [sshfsDriver.Get, h]

/-- C14 as amended, at a concrete input: an entry with no connection. -/
theorem C14_get_by_entry_witness :
    (sshfsDriver.Get ⟨"/mnt", [("/mnt/h", ⟨"h", 0⟩)]⟩ ⟨"h"⟩).resp =
      ⟨"", "", [], some ⟨"h", sshfsDriver.mountpoint ⟨"/mnt", [("/mnt/h", ⟨"h", 0⟩)]⟩ "h"⟩, ""⟩ :=
  (C14_get_by_entry ⟨"/mnt", [("/mnt/h", ⟨"h", 0⟩)]⟩ ⟨"h"⟩).2.2.2 ⟨"h", 0⟩ (by decide)

/-- C15: `List` never changes the driver, calls nothing and returns no error;
it returns one record for each registry entry, made of the entry's name and
the mountpoint of that name; on a new driver, and after any calls none of
which is a `Mount`, the collection is empty. -/
theorem C15_list_entries (d : sshfsDriver) (r : Request) :
    (d.List r).d = d ∧ (d.List r).events = [] ∧ (d.List r).resp.Err = "" ∧
      (d.List r).resp.Volumes =
        d.volumes.map (fun kv => ⟨kv.2.name, d.mountpoint kv.2.name⟩) ∧
      (d.List r).resp.Volumes.length = d.volumes.length ∧
      (∀ root : String, ((newSshfsDriver root).List r).resp.Volumes = []) ∧
      (∀ (root : String) (cs : List Call), (∀ c ∈ cs, c.op ≠ .Mount) →
        ((runCalls (newSshfsDriver root) cs).List r).resp.Volumes = []) := by
  refine ⟨rfl, rfl, rfl, rfl, ?_, fun root => rfl, fun root cs h => ?_⟩
  · simp [sshfsDriver.List]
  · rw [no_mount_keeps_empty cs h root]
    rfl

/-- C15 at a concrete input: `Unmount`, `Remove` and `Get` on a new driver. -/
theorem C15_list_entries_witness :
    ((runCalls (newSshfsDriver "/mnt")
      [⟨.Unmount, ⟨"h"⟩, envOk⟩, ⟨.Remove, ⟨"h"⟩, envOk⟩, ⟨.Get, ⟨"h"⟩, envOk⟩]).List
        ⟨""⟩).resp.Volumes = [] :=
  (C15_list_entries (newSshfsDriver "/mnt") ⟨""⟩).2.2.2.2.2.2 "/mnt"
    [⟨.Unmount, ⟨"h"⟩, envOk⟩, ⟨.Remove, ⟨"h"⟩, envOk⟩, ⟨.Get, ⟨"h"⟩, envOk⟩] (by decide)

/-- C16 fails as stated: after a successful `Mount("h")`, a second `Mount("h")`
made while the mountpoint exists and is not a directory returns the mountpoint
without error and without looking at the path. -/
theorem C16_counterexample :
    envFile.lstat ((newSshfsDriver "/mnt").mountpoint "h") = .info false ∧
      (traceCalls (newSshfsDriver "/mnt") (mountCalls "h" [envOk, envFile])).map
          (fun res => (res.resp, res.events)) =
        [(Response.ofMountpoint "/mnt/h",
            [Event.lstat "/mnt/h", Event.sshfs "sshfs h:/  /mnt/h" "/mnt/h" true]),
          (Response.ofMountpoint "/mnt/h", [])] ∧
      (runCalls (newSshfsDriver "/mnt") (mountCalls "h" [envOk, envFile])).volumes.get
        "/mnt/h" = some ⟨"h", 2⟩ := by
  decide

/-- C16 as amended: when the volume is not counted as mounted (no entry with
`connections > 0`), a mountpoint that exists and is not a directory makes
`Mount` fail with the not-a-directory text after the `Lstat` alone, the driver
unchanged; and a mountpoint that does not exist is created with `MkdirAll`
before the external mount: when the creation succeeds the calls are `Lstat`,
`MkdirAll`, then those of `mountVolume`, and when it fails `Mount` returns that
error and does not mount. -/
theorem C16_mountpoint_check (d : sshfsDriver) (env : Env) (r : Request)
    (hnot : ∀ s, d.volumes.get (d.mountpoint r.Name) = some s → s.connections ≤ 0) :
    (env.lstat (d.mountpoint r.Name) = .info false →
        d.Mount env r =
          ⟨d, Response.ofErr (d.mountpoint r.Name ++ " already exist and it's not a directory\n"),
            [Event.lstat (d.mountpoint r.Name)]⟩) ∧
      (env.lstat (d.mountpoint r.Name) = .notExist →
        env.mkdirAll (d.mountpoint r.Name) = none →
        (d.Mount env r).events =
          [Event.lstat (d.mountpoint r.Name), Event.mkdirAll (d.mountpoint r.Name) true] ++
            (mountVolume env r.Name (d.mountpoint r.Name)).2) ∧
      (env.lstat (d.mountpoint r.Name) = .notExist →
        ∀ err, env.mkdirAll (d.mountpoint r.Name) = some err →
          d.Mount env r =
            ⟨d, Response.ofErr err,
              [Event.lstat (d.mountpoint r.Name),
                Event.mkdirAll (d.mountpoint r.Name) false]⟩) := by
  obtain ⟨root, vs⟩ := d
  simp only [sshfsDriver.mountpoint] at hnot ⊢
  rw [Mount_uncounted root vs env r hnot]
  refine ⟨?_, ?_, ?_⟩
  · intro hl
    simp [mountFresh, hl, notADirectory]
  · intro hl hk
    simp only [mountFresh, hl, hk, mountAndRecord]
    split <;> simp_all
  · intro hl err hk
    simp [mountFresh, hl, hk]

/-- C16 as amended, at a concrete input: the mountpoint of `h` is a file. -/
theorem C16_mountpoint_check_witness :
    (newSshfsDriver "/mnt").Mount envFile ⟨"h"⟩ =
      ⟨newSshfsDriver "/mnt",
        Response.ofErr ((newSshfsDriver "/mnt").mountpoint "h" ++
          " already exist and it's not a directory\n"),
        [Event.lstat ((newSshfsDriver "/mnt").mountpoint "h")]⟩ :=
  (C16_mountpoint_check (newSshfsDriver "/mnt") envFile ⟨"h"⟩ (by decide)).1 (by decide)

/-- C18: `Remove(name)` returns the empty response and calls nothing; afterwards
the registry has no entry at the mountpoint of the name exactly when there was
none or the entry had at most one connection; an entry with more than one
connection, and an unknown name, leave the driver as it was; every other key
keeps its entry. -/
theorem C18_remove (d : sshfsDriver) (r : Request) :
    (d.Remove r).resp = Response.zero ∧ (d.Remove r).events = [] ∧
      ((d.Remove r).d.volumes.get (d.mountpoint r.Name) = none ↔
        (d.volumes.get (d.mountpoint r.Name) = none ∨
          ∃ s, d.volumes.get (d.mountpoint r.Name) = some s ∧ s.connections ≤ 1)) ∧
      (∀ s, d.volumes.get (d.mountpoint r.Name) = some s → 1 < s.connections →
        (d.Remove r).d = d) ∧
      (d.volumes.get (d.mountpoint r.Name) = none → (d.Remove r).d = d) ∧
      (∀ k, k ≠ d.mountpoint r.Name →
        (d.Remove r).d.volumes.get k = d.volumes.get k) := by
  cases hg : d.volumes.get (d.mountpoint r.Name) with
  | none =>
    simp [sshfsDriver.Remove, hg]
  | some s =>
    by_cases hc : s.connections ≤ 1
    · simp only [sshfsDriver.Remove, hg, hc, if_true]
      refine ⟨trivial, trivial, ?_, ?_, ?_, ?_⟩
      · simp [Registry.get_delete_self, hc]
      · intro s1 hs1 h1
        simp only [Option.some.injEq] at hs1
        subst hs1
        omega
      · intro h
        simp at h
      · intro k hk
        exact Registry.get_delete_other _ _ _ hk
    · simp only [sshfsDriver.Remove, hg, hc, if_false]
      refine ⟨trivial, trivial, ?_, ?_, ?_, ?_⟩
      · simp [hg, hc]
      · intro _ _ _
        trivial
      · intro h
        simp at h
      · intro k _
        trivial

/-- C18 at a concrete input: an entry with two connections stays. -/
theorem C18_remove_witness :
    (sshfsDriver.Remove ⟨"/mnt", [("/mnt/h", ⟨"h", 2⟩)]⟩ ⟨"h"⟩).d =
      ⟨"/mnt", [("/mnt/h", ⟨"h", 2⟩)]⟩ :=
  (C18_remove ⟨"/mnt", [("/mnt/h", ⟨"h", 2⟩)]⟩ ⟨"h"⟩).2.2.2.1 ⟨"h", 2⟩ (by decide) (by decide)

/-- C19: in every state reached from the empty registry by any calls, every
entry is stored under the mountpoint of its own name, so every volume that
`Get(name)` returns carries the mountpoint that `Path(name)` gives; its name
is the one of the `Mount` that made the entry, and can differ from the
requested one: after `Mount("h/")`, `Get("h")` returns the name `h/`. -/
theorem C19_entry_key_is_mountpoint (root : String) (cs : List Call) :
    (∀ kv ∈ (runCalls (newSshfsDriver root) cs).volumes,
        (runCalls (newSshfsDriver root) cs).mountpoint kv.2.name = kv.1) ∧
      (∀ k s, (runCalls (newSshfsDriver root) cs).volumes.get k = some s →
        (runCalls (newSshfsDriver root) cs).mountpoint s.name = k) ∧
      (∀ r v, ((runCalls (newSshfsDriver root) cs).Get r).resp.Volume = some v →
        v.Mountpoint = ((runCalls (newSshfsDriver root) cs).Path r).resp.Mountpoint) ∧
      ((runCalls (newSshfsDriver "/mnt") (mountCalls "h/" [envOk])).Get ⟨"h"⟩).resp.Volume =
        some ⟨"h/", "/mnt/h"⟩ := by
  have hk : keysMatch (runCalls (newSshfsDriver root) cs) :=
    keysMatch_run cs _ (by intro kv hkv; simp [newSshfsDriver] at hkv)
  have hget : ∀ k s, (runCalls (newSshfsDriver root) cs).volumes.get k = some s →
      (runCalls (newSshfsDriver root) cs).mountpoint s.name = k :=
    fun k s h => hk (k, s) (Registry.mem_of_get h)
  refine ⟨hk, hget, ?_, by decide⟩
  intro r v hv
  cases hg : (runCalls (newSshfsDriver root) cs).volumes.get
      ((runCalls (newSshfsDriver root) cs).mountpoint r.Name) with
  | none => simp [sshfsDriver.Get, hg, Response.ofErr] at hv
  | some s =>
    simp only [sshfsDriver.Get, hg, Option.some.injEq] at hv
    subst hv
    exact hget _ s hg

/-- C19 at a concrete input: the entry left by a mount and an unmount of `h`. -/
theorem C19_entry_key_is_mountpoint_witness :
    (runCalls (newSshfsDriver "/mnt")
      (mountCalls "h" [envOk] ++ unmountCalls "h" [envOk])).mountpoint
        (volume_name.mk "h" 0).name = "/mnt/h" :=
  (C19_entry_key_is_mountpoint "/mnt" (mountCalls "h" [envOk] ++ unmountCalls "h" [envOk])).2.1
    "/mnt/h" ⟨"h", 0⟩ (by decide)

end SshfsVolume
